import Mathlib

/-!
Verification of the inter-unit loan reconciliation engine.

The definitions below are a shallow embedding of the Python sources:

* `interunit_loan_matcher.py` — `ExcelTransactionMatcher` (amount parsing and
  indexing, the five optimized matching strategies, the sequential match-id
  assignment pipeline `find_potential_matches`, and the annotation loop of
  `create_matched_files`);
* `transaction_block_identifier.py` — `TransactionBlockIdentifier`
  (`identify_transaction_blocks`).

Conventions of the embedding:

* Python floats are modelled by `ℚ`; amounts are only ever compared, never
  combined arithmetically, exactly as in the source.
* A pandas cell read with `dtype=str` is an `Option String` (`none` = `NaN`);
  an openpyxl numeric cell is an `Option ℚ` (`none` = empty cell).
* Python truthiness of a string value is "nonempty"; of a numeric value it is
  "nonzero"; of `None` it is false.
* A transactions DataFrame row index `i` corresponds to Excel row `i + 10`
  (rows 1–8 are metadata, row 9 is the column-header row).
* Strings are manipulated through their character lists, mirroring Python's
  `strip`, `lower`, `isdigit`, `replace` and membership tests directly.
-/

/-- ASCII decimal digit test; mirrors which characters `str.isdigit` accepts
for the amount strings this program reads from ledgers. -/
def isDigitChar (c : Char) : Bool := 48 ≤ c.toNat && c.toNat ≤ 57

/-- Python `str.isdigit`: nonempty and all digits. -/
def pyIsdigit (l : List Char) : Bool := !l.isEmpty && l.all isDigitChar

/-- Python whitespace test used by `str.strip`. -/
def isSpaceChar (c : Char) : Bool :=
  c == ' ' || c == '\t' || c == '\n' || c == '\r' || c.toNat == 11 || c.toNat == 12

/-- Python `str.strip()` on a character list. -/
def pyStripChars (l : List Char) : List Char :=
  ((l.dropWhile isSpaceChar).reverse.dropWhile isSpaceChar).reverse

/-- Python `str.strip()`. -/
def pyStrip (s : String) : String := ⟨pyStripChars s.data⟩

/-- Python `str.lower()` (ASCII letters, which is all this program compares). -/
def pyLowerChar (c : Char) : Char :=
  if 65 ≤ c.toNat && c.toNat ≤ 90 then Char.ofNat (c.toNat + 32) else c

/-- Python `str.lower()`. -/
def pyLower (s : String) : String := ⟨s.data.map pyLowerChar⟩

/-- Does list `l` start with the list `pat`? -/
def charsStartWith : List Char → List Char → Bool
  | [], _ => true
  | _ :: _, [] => false
  | p :: ps, c :: cs => p == c && charsStartWith ps cs

/-- Python substring membership `pat in s` on character lists. -/
def charsContain (pat : List Char) : List Char → Bool
  | [] => charsStartWith pat []
  | c :: cs => charsStartWith pat (c :: cs) || charsContain pat cs

/-- Python substring membership `pat in s`. -/
def containsSub (pat s : String) : Bool := charsContain pat.data s.data

/-- Numeric value of a digit list (most significant first), as in `float`'s
integer-part reading. -/
def natVal (l : List Char) : Nat := l.foldl (fun acc c => acc * 10 + (c.toNat - 48)) 0

/-- Split a character list at the first `'.'`: the part before it, and
(`some`) the part after it when a dot is present. -/
def splitAtDot : List Char → List Char × Option (List Char)
  | [] => ([], none)
  | c :: cs =>
    if c = '.' then ([], some cs)
    else
      let p := splitAtDot cs
      (c :: p.1, p.2)

/-- Exact value of a decimal literal, as Python `float` reads a string made of
digits and at most one decimal point. -/
def decValue (l : List Char) : ℚ :=
  match splitAtDot l with
  | (a, none) => mkRat (natVal a) 1
  | (a, some b) => mkRat (natVal a * 10 ^ b.length + natVal b) (10 ^ b.length)

/-- Python `s.replace(",", "")`. -/
def stripCommas (l : List Char) : List Char := l.filter (fun c => c != ',')

/-- Python `s.replace(".", "")`. -/
def remDots (l : List Char) : List Char := l.filter (fun c => c != '.')

/-- Number of decimal points in the string. -/
def dotCount (l : List Char) : Nat := l.count '.'

/-- `float(s)` raises on a comma-stripped amount string that passed the
program's `replace('.', '').isdigit()` check: that happens exactly when the
string is digits-and-dots with two or more dots. -/
def pyFloatRaises (l : List Char) : Bool := pyIsdigit (remDots l) && decide (2 ≤ dotCount l)

/-- One field of `ExcelTransactionMatcher.extract_amounts_from_strings`
(interunit_loan_matcher.py:160): value if the dot-stripped text is all digits,
else `0.0`. -/
def parseField (l : List Char) : ℚ := if pyIsdigit (remDots l) then decValue l else 0

/-- `ExcelTransactionMatcher.extract_amounts_from_strings`
(interunit_loan_matcher.py:143-165).  The raw debit/credit cells default to
`"0"` when missing; commas are stripped; each field parses to its value when
its dot-stripped text is all digits and to `0.0` otherwise — except that when
`float` raises inside the shared `try` block (a digits-and-dots string with
two or more dots), the `except` arm sets BOTH amounts to `0.0`. -/
def extract_amounts_from_strings (debitRaw creditRaw : Option String) : ℚ × ℚ :=
  let dc := stripCommas (debitRaw.getD "0").data
  let cc := stripCommas (creditRaw.getD "0").data
  if pyFloatRaises dc || pyFloatRaises cc then (0, 0)
  else (parseField dc, parseField cc)

/-- Modelled from the spec: the claimed per-field amount acceptance — after
stripping commas, accept exactly the strings consisting of digits and at most
a decimal point; any other text is coerced to `0.0`.  This definition follows
the claim's words and is compared against `extract_amounts_from_strings`. -/
def specAccepts (l : List Char) : Bool :=
  l.all (fun c => isDigitChar c || c == '.') && decide (dotCount l ≤ 1) && l.any isDigitChar

/-- Modelled from the spec: per-field amount value under the claimed parsing. -/
def specAmount (l : List Char) : ℚ := if specAccepts l then decValue l else 0

/-- Python `str.upper()` (ASCII). -/
def pyUpperChar (c : Char) : Char :=
  if 97 ≤ c.toNat && c.toNat ≤ 122 then Char.ofNat (c.toNat - 32) else c

/-- Python `str.upper()`. -/
def pyUpper (s : String) : String := ⟨s.data.map pyUpperChar⟩

/-- Truthiness of an optional string cell value (Python: `None` and `""` are
falsy). -/
def truthyS : Option String → Bool
  | none => false
  | some s => !s.data.isEmpty

/-- Truthiness of an optional numeric cell value (Python: `None` and `0` are
falsy). -/
def truthyQ : Option ℚ → Bool
  | none => false
  | some q => q != 0

/-- One row of a loaded ledger file, carrying both views the program reads:
the pandas transactions DataFrame loaded with `dtype=str` (`descStr` is column
2, `debitStr`/`creditStr` are columns 7/8), and the openpyxl worksheet cells
with their font flags (columns A, B, C, F, G, H, I of the same Excel row).
DataFrame row `i` corresponds to Excel row `i + 10`. -/
structure Row where
  descStr : Option String := none
  debitStr : Option String := none
  creditStr : Option String := none
  dateVal : Option String := none
  partVal : Option String := none
  descVal : Option String := none
  descBold : Bool := false
  descItalic : Bool := false
  vchTypeVal : Option String := none
  vchTypeBold : Bool := false
  vchNoVal : Option String := none
  vchNoBold : Bool := false
  vchNoItalic : Bool := false
  debitVal : Option ℚ := none
  debitBold : Bool := false
  creditVal : Option ℚ := none
  creditBold : Bool := false
  deriving DecidableEq, Inhabited

/-- The per-file state `find_potential_matches` works with after
`process_files`: the transactions rows together with the per-row extraction
arrays (`self._lc_numbers*_array`, `self._po_numbers*_array`,
`self._usd_amounts*_array`, `self._interunit_accounts*_array`) that
`create_optimized_arrays` installed from `load_workbooks_and_extract_data_optimized`. -/
structure FileData where
  rows : List Row
  lcArr : List (Option String) := []
  poArr : List (Option String) := []
  usdArr : List (Option String) := []
  iuArr : List (Option String) := []

/-- Row lookup by DataFrame index. -/
def rowAt (f : FileData) (i : Nat) : Row := f.rows.getD i default

/-- `ExcelTransactionMatcher.get_cached_narration` (interunit_loan_matcher.py:462-470):
`str(transactions_df.iloc[row_idx, 2]).strip()`; a missing cell is `NaN`, whose
`str()` is `"nan"`. -/
def narrAt (f : FileData) (i : Nat) : String := pyStrip ((rowAt f i).descStr.getD "nan")

/-- Parsed (debit, credit) of a row, as cached by `preprocess_all_amounts`. -/
def amtsAt (f : FileData) (i : Nat) : ℚ × ℚ :=
  extract_amounts_from_strings (rowAt f i).debitStr (rowAt f i).creditStr

/-- Parsed debit of a row. -/
def dAmt (f : FileData) (i : Nat) : ℚ := (amtsAt f i).1

/-- Parsed credit of a row. -/
def cAmt (f : FileData) (i : Nat) : ℚ := (amtsAt f i).2

/-- `ExcelTransactionMatcher.get_optimized_lc_numbers` and friends
(interunit_loan_matcher.py:501-527): `array[idx] if idx < len(array) else None`. -/
def lcAt (f : FileData) (i : Nat) : Option String := f.lcArr.getD i none

/-- PO lookup in the instance array. -/
def poAt (f : FileData) (i : Nat) : Option String := f.poArr.getD i none

/-- USD lookup in the instance array. -/
def usdAt (f : FileData) (i : Nat) : Option String := f.usdArr.getD i none

/-- `ExcelTransactionMatcher.create_amount_index`
(interunit_loan_matcher.py:560-581), lender side: row `idx` is appended to
`amount_index[debit]['lenders']` exactly when its parsed debit is positive;
bucket lists are in ascending row order. -/
def lendersAt (f : FileData) (a : ℚ) : List Nat :=
  (List.range f.rows.length).filter (fun i => decide (0 < dAmt f i) && decide (dAmt f i = a))

/-- `create_amount_index`, borrower side (parsed credit positive). -/
def borrowersAt (f : FileData) (a : ℚ) : List Nat :=
  (List.range f.rows.length).filter (fun i => decide (0 < cAmt f i) && decide (cAmt f i = a))

/-- The keys of a file's `amount_index`: every positive parsed debit or credit
value, first occurrence order. -/
def keysList (f : FileData) : List ℚ :=
  ((List.range f.rows.length).flatMap (fun i =>
    (if 0 < dAmt f i then [dAmt f i] else []) ++
    (if 0 < cAmt f i then [cAmt f i] else []))).dedup

/-- `common_amounts = set(index1.keys()) & set(index2.keys())` as iterated by
the optimized matchers; a Python set fixes no order, so the embedding uses
first-file key order (every claim proved below is order-independent). -/
def commonAmounts (f1 f2 : FileData) : List ℚ :=
  (keysList f1).filter (fun a => decide (a ∈ keysList f2))

/-- One match record, as the dictionaries the strategies emit: a `Match_Type`
tag, the two DataFrame row indices (`File1_Index` / `File2_Index`), the shared
`Amount`, the strategy evidence string (`LC_Number`, `PO_Number`,
`USD_Amount`, `Narration` or `Interunit_Account`), the interunit strategy's
raw worksheet debit/credit values, and the `match_id` assigned afterwards. -/
structure MatchRec where
  mtype : String
  file1Index : Nat
  file2Index : Nat
  amount : ℚ
  evidence : String
  f1DebitVal : Option ℚ := none
  f1CreditVal : Option ℚ := none
  f2DebitVal : Option ℚ := none
  f2CreditVal : Option ℚ := none
  mid : Option String := none
  deriving DecidableEq, Inhabited

/-- The shared loop shape of the four amount-bucket optimized strategies
(interunit_loan_matcher.py:583-805): for every common amount, pair each File 1
lender with each File 2 borrower under `condF`, then each File 2 lender with
each File 1 borrower under `condR`, emitting a record for every pair that
passes; nothing is marked as used. -/
def bucketPairs (f1 f2 : FileData)
    (condF : Nat → Nat → Bool) (mkF : Nat → Nat → ℚ → MatchRec)
    (condR : Nat → Nat → Bool) (mkR : Nat → Nat → ℚ → MatchRec) : List MatchRec :=
  (commonAmounts f1 f2).flatMap (fun a =>
    ((lendersAt f1 a).flatMap (fun li =>
      (borrowersAt f2 a).filterMap (fun bi =>
        if condF li bi then some (mkF li bi a) else none)))
    ++ ((lendersAt f2 a).flatMap (fun li =>
      (borrowersAt f1 a).filterMap (fun bi =>
        if condR li bi then some (mkR li bi a) else none))))

/-- `if lc1 and lc2 and lc1 == lc2` — both references truthy and equal. -/
def refCond (x y : Option String) : Bool := truthyS x && truthyS y && x == y

/-- `ExcelTransactionMatcher.find_lc_matches_optimized`
(interunit_loan_matcher.py:583-634).  NOTE, faithful to the source: the
`lc_numbers*_unmatched` parameters passed by `find_potential_matches` are
never read; the lookups go through `get_optimized_lc_numbers`, i.e. the
instance arrays `f1.lcArr` / `f2.lcArr`. -/
def find_lc_matches_optimized (f1 f2 : FileData)
    (_lcNumbers1Unmatched _lcNumbers2Unmatched : List (Option String)) : List MatchRec :=
  bucketPairs f1 f2
    (fun li bi => refCond (lcAt f1 li) (lcAt f2 bi))
    (fun li bi a => { mtype := "LC", file1Index := li, file2Index := bi, amount := a,
                      evidence := (lcAt f1 li).getD "" })
    (fun li bi => refCond (lcAt f1 bi) (lcAt f2 li))
    (fun li bi a => { mtype := "LC", file1Index := bi, file2Index := li, amount := a,
                      evidence := (lcAt f1 bi).getD "" })

/-- `ExcelTransactionMatcher.find_po_matches_optimized`
(interunit_loan_matcher.py:636-687); same shape as LC, over the PO arrays. -/
def find_po_matches_optimized (f1 f2 : FileData)
    (_poNumbers1Unmatched _poNumbers2Unmatched : List (Option String)) : List MatchRec :=
  bucketPairs f1 f2
    (fun li bi => refCond (poAt f1 li) (poAt f2 bi))
    (fun li bi a => { mtype := "PO", file1Index := li, file2Index := bi, amount := a,
                      evidence := (poAt f1 li).getD "" })
    (fun li bi => refCond (poAt f1 bi) (poAt f2 li))
    (fun li bi a => { mtype := "PO", file1Index := bi, file2Index := li, amount := a,
                      evidence := (poAt f1 bi).getD "" })

/-- `ExcelTransactionMatcher.find_usd_matches_optimized`
(interunit_loan_matcher.py:689-740); same shape, over the USD token arrays. -/
def find_usd_matches_optimized (f1 f2 : FileData)
    (_usdAmounts1Unmatched _usdAmounts2Unmatched : List (Option String)) : List MatchRec :=
  bucketPairs f1 f2
    (fun li bi => refCond (usdAt f1 li) (usdAt f2 bi))
    (fun li bi a => { mtype := "USD", file1Index := li, file2Index := bi, amount := a,
                      evidence := (usdAt f1 li).getD "" })
    (fun li bi => refCond (usdAt f1 bi) (usdAt f2 li))
    (fun li bi a => { mtype := "USD", file1Index := bi, file2Index := li, amount := a,
                      evidence := (usdAt f1 bi).getD "" })

/-- The narration acceptance test of `find_narration_matches_optimized`: the
stripped text is longer than 10 characters and its lowercase form is not in
`['nan', 'none', '']`. -/
def narrOkStr (s : String) : Bool :=
  decide (10 < s.data.length) &&
  !(pyLower s == "nan") && !(pyLower s == "none") && !(pyLower s == "")

/-- Per-pair narration test: both texts acceptable and exactly equal. -/
def narrCond (lenderN borrowerN : String) : Bool :=
  narrOkStr lenderN && narrOkStr borrowerN && lenderN == borrowerN

/-- `ExcelTransactionMatcher.find_narration_matches_optimized`
(interunit_loan_matcher.py:742-805): amount-bucket pairing with exact equality
of the stripped narration texts. -/
def find_narration_matches_optimized (f1 f2 : FileData) : List MatchRec :=
  bucketPairs f1 f2
    (fun li bi => narrCond (narrAt f1 li) (narrAt f2 bi))
    (fun li bi a => { mtype := "Narration", file1Index := li, file2Index := bi, amount := a,
                      evidence := narrAt f1 li })
    (fun li bi => narrCond (narrAt f2 li) (narrAt f1 bi))
    (fun li bi a => { mtype := "Narration", file1Index := bi, file2Index := li, amount := a,
                      evidence := narrAt f2 li })

/-- `has_real_date` (transaction_block_identifier.py:171-174): the date cell
value is truthy and its stripped text is nonempty and not the literal
`"None"`. -/
def hasRealDate (v : Option String) : Bool :=
  truthyS v && !(pyStrip (v.getD "")).data.isEmpty &&
  !(pyStrip (v.getD "") == "None") && !(pyStrip (v.getD "") == "")

/-- `has_dr_cr`: the particulars cell is truthy and strips to exactly `"Dr"`
or `"Cr"`. -/
def hasDrCr (v : Option String) : Bool :=
  truthyS v && (pyStrip (v.getD "") == "Dr" || pyStrip (v.getD "") == "Cr")

/-- `is_block_start` (transaction_block_identifier.py:192-193): real date,
Dr/Cr particulars, bold voucher-type cell, voucher-number cell present and
neither bold nor italic, a bold debit or credit cell, and the particulars cell
does not contain `"Opening Balance"`. -/
def isBlockStart (r : Row) : Bool :=
  hasRealDate r.dateVal && hasDrCr r.partVal &&
  (truthyS r.vchTypeVal && r.vchTypeBold) &&
  (truthyS r.vchNoVal && !r.vchNoBold && !r.vchNoItalic) &&
  ((truthyQ r.debitVal && r.debitBold) || (truthyQ r.creditVal && r.creditBold)) &&
  !(truthyS r.partVal && containsSub "Opening Balance" (r.partVal.getD ""))

/-- `is_block_end` (transaction_block_identifier.py:189): the particulars cell
strips to exactly `"Entered By :"`. -/
def isBlockEnd (r : Row) : Bool :=
  truthyS r.partVal && pyStrip (r.partVal.getD "") == "Entered By :"

/-- The forward scan of
`TransactionBlockIdentifier.identify_transaction_blocks`
(transaction_block_identifier.py:155-216): `i` is the DataFrame index of the
first row of the remaining list, `cur` the currently open block (`none` when
not in a block).  A block-start row closes any open block and opens a new one;
while a block is open every row is appended and an `"Entered By :"` row closes
it; at end of input an open block is emitted as is. -/
def identifyGo : List Row → Nat → Option (List Nat) → List (List Nat)
  | [], _, cur => (match cur with | some b => [b] | none => [])
  | r :: rs, i, cur =>
    if isBlockStart r then
      (match cur with | some b => [b] | none => []) ++ identifyGo rs (i + 1) (some [i])
    else
      match cur with
      | some b =>
        if isBlockEnd r then (b ++ [i]) :: identifyGo rs (i + 1) none
        else identifyGo rs (i + 1) (some (b ++ [i]))
      | none => identifyGo rs (i + 1) none

/-- `TransactionBlockIdentifier.identify_transaction_blocks`: list of blocks,
each a list of DataFrame row indices in order. -/
def identify_transaction_blocks (rows : List Row) : List (List Nat) :=
  identifyGo rows 0 none

/-- The warnings `identify_transaction_blocks` signals to its caller.  The
source routine returns only the block list and prints only a debug count; it
raises nothing and records no warning in any channel, so this list is empty
for every input. -/
def blockIntegrityWarnings (_rows : List Row) : List String := []

/-- The `amounts` sub-dictionary of `_analyze_formatting_data`
(interunit_loan_matcher.py:264-274): the raw worksheet debit/credit of the
last block row having a nonzero amount cell (falsy values stored as `None`),
with that row's index. -/
structure AmtRec where
  debit : Option ℚ
  credit : Option ℚ
  row : Nat
  deriving DecidableEq

/-- One entry of the cached formatting data
(`_analyze_formatting_data`, interunit_loan_matcher.py:215-279): the short
codes of interunit ledger accounts found on bold-not-italic description rows,
the short codes found inside italic-not-bold narration rows, and the amounts
record.  Only the `short_code` fields of the source's entry dictionaries are
kept, because they are all `find_interunit_matches_optimized` reads. -/
structure BlockData where
  ledgerCodes : List String
  narrCodes : List String
  amounts : Option AmtRec
  deriving DecidableEq

/-- Per-row body of the block loop in `_analyze_formatting_data`
(interunit_loan_matcher.py:229-274).  `mapping` is
`InterunitLoanMatcher.interunit_account_mapping` (full ledger account name →
short code) in insertion order; that class lives in the `matching_logic`
package whose interunit module is not in the sources, so the mapping is a
parameter here. -/
def analyzeRowStep (mapping : List (String × String)) (r : Row) (rowIdx : Nat)
    (bd : BlockData) : BlockData :=
  let bd1 :=
    if truthyS r.descVal && r.descBold && !r.descItalic then
      { bd with ledgerCodes := bd.ledgerCodes ++
          ((mapping.filter (fun p =>
            containsSub (pyUpper p.1) (pyUpper (r.descVal.getD "")))).map (fun p => p.2)) }
    else if truthyS r.descVal && !r.descBold && r.descItalic then
      { bd with narrCodes := bd.narrCodes ++
          ((mapping.map (fun p => p.2)).filter (fun c =>
            containsSub c (r.descVal.getD ""))) }
    else bd
  if truthyQ r.debitVal || truthyQ r.creditVal then
    { bd1 with amounts := some {
        debit := if truthyQ r.debitVal then r.debitVal else none,
        credit := if truthyQ r.creditVal then r.creditVal else none,
        row := rowIdx } }
  else bd1

/-- The per-block accumulation of `_analyze_formatting_data`; the
`excel_row <= worksheet.max_row` guard becomes `rowIdx < rows.length`. -/
def analyzeBlock (mapping : List (String × String)) (rows : List Row)
    (block : List Nat) : BlockData :=
  block.foldl (fun bd rowIdx =>
    if rowIdx < rows.length then analyzeRowStep mapping (rows.getD rowIdx default) rowIdx bd
    else bd)
    { ledgerCodes := [], narrCodes := [], amounts := none }

/-- `_analyze_formatting_data` over the identified blocks, keeping the blocks
that produced at least one ledger or narration short code. -/
def analyze_formatting_data (mapping : List (String × String)) (rows : List Row) :
    List BlockData :=
  ((identify_transaction_blocks rows).map (analyzeBlock mapping rows)).filter
    (fun bd => !bd.ledgerCodes.isEmpty || !bd.narrCodes.isEmpty)

/-- The first narration short code of `xs` that equals some ledger short code
of `ys` — the nested `for`/`break` search of
`find_interunit_matches_optimized`. -/
def firstCross (xs ys : List String) : Option String :=
  xs.find? (fun c => ys.contains c)

/-- The body of the block-pair loop of `find_interunit_matches_optimized`
(interunit_loan_matcher.py:824-881): opposite truthy raw amounts, exact raw
amount equality, then a mutual short-code cross reference; at most one match
per block pair. -/
def interunitPair (b1 b2 : BlockData) : Option MatchRec :=
  match b1.amounts, b2.amounts with
  | some a1, some a2 =>
    if (truthyQ a1.debit && truthyQ a2.credit) || (truthyQ a1.credit && truthyQ a2.debit) then
      let amount1 : Option ℚ := if truthyQ a1.debit then a1.debit else a1.credit
      let amount2 : Option ℚ := if truthyQ a2.debit then a2.debit else a2.credit
      if amount1 == amount2 then
        match firstCross b1.narrCodes b2.ledgerCodes, firstCross b2.narrCodes b1.ledgerCodes with
        | some c1, some c2 =>
          some { mtype := "Interunit", file1Index := a1.row, file2Index := a2.row,
                 amount := amount1.getD 0,
                 evidence := c1 ++ " <-> " ++ c2,
                 f1DebitVal := a1.debit, f1CreditVal := a1.credit,
                 f2DebitVal := a2.debit, f2CreditVal := a2.credit }
        | _, _ => none
      else none
    else none
  | _, _ => none

/-- `ExcelTransactionMatcher.find_interunit_matches_optimized`
(interunit_loan_matcher.py:807-884).  NOTE, faithful to the source: the
`interunit_accounts*_unmatched` parameters are never read; the matcher works
from the cached formatting data of the two worksheets. -/
def find_interunit_matches_optimized (mapping : List (String × String)) (f1 f2 : FileData)
    (_iuAccounts1Unmatched _iuAccounts2Unmatched : List (Option String)) : List MatchRec :=
  (analyze_formatting_data mapping f1.rows).flatMap (fun b1 =>
    (analyze_formatting_data mapping f2.rows).filterMap (fun b2 => interunitPair b1 b2))

/-- `ExcelTransactionMatcher.create_unmatched_indices_optimized`
(interunit_loan_matcher.py:429-442), File 1 side: the `File1_Index` fields of
all matches found so far (set membership is all that is used of it). -/
def matchedIndices1 (lists : List (List MatchRec)) : List Nat :=
  (lists.flatMap id).map MatchRec.file1Index

/-- `create_unmatched_indices_optimized`, File 2 side. -/
def matchedIndices2 (lists : List (List MatchRec)) : List Nat :=
  (lists.flatMap id).map MatchRec.file2Index

/-- The masking loops of `find_potential_matches`
(interunit_loan_matcher.py:1353-1363 etc.): a copy of an extraction array with
every already-matched index set to `None`. -/
def maskMatched (arr : List (Option String)) (matched : List Nat) : List (Option String) :=
  arr.mapIdx (fun i v => if matched.contains i then none else v)

/-- ASCII digit character, for `"%03d"` formatting. -/
def digitChar (d : Nat) : Char := Char.ofNat (48 + d)

/-- Python `f"M{n:03d}"`: `M` followed by `n` padded with zeros to at least
three digits. -/
def formatMid (n : Nat) : String :=
  if n < 1000 then ⟨['M', digitChar (n / 100 % 10), digitChar (n / 10 % 10), digitChar (n % 10)]⟩
  else "M" ++ toString n

/-- The sequential id loop of `find_potential_matches`
(interunit_loan_matcher.py:1527-1536): the counter starts at `k` and each
match in list order receives `M{counter:03d}`. -/
def assignIdsFrom (k : Nat) : List MatchRec → List MatchRec
  | [] => []
  | m :: ms => { m with mid := some (formatMid k) } :: assignIdsFrom (k + 1) ms

/-- The sort key `lambda x: x['match_id']`. -/
def midKey (m : MatchRec) : String := m.mid.getD ""

/-- Lexicographic code-point comparison of character lists, as Python compares
strings with `<`. -/
def charsLtb : List Char → List Char → Bool
  | [], [] => false
  | [], _ :: _ => true
  | _ :: _, [] => false
  | a :: as, b :: bs =>
    if a.toNat < b.toNat then true
    else if b.toNat < a.toNat then false
    else charsLtb as bs

/-- Python string `<`. -/
def strLtb (s t : String) : Bool := charsLtb s.data t.data

/-- Stable insertion preserving original order among equal keys, modelling
Python's stable `list.sort(key=...)`. -/
def sortInsert (m : MatchRec) : List MatchRec → List MatchRec
  | [] => [m]
  | x :: xs => if strLtb (midKey x) (midKey m) then x :: sortInsert m xs else m :: x :: xs

/-- `all_matches.sort(key=lambda x: x['match_id'])`
(interunit_loan_matcher.py:1541). -/
def sortByMid (l : List MatchRec) : List MatchRec := l.foldr sortInsert []

/-- The strategy cascade of `ExcelTransactionMatcher.find_potential_matches`
(interunit_loan_matcher.py:1325-1520) up to and including the concatenation
`all_matches = narration + lc + po + interunit + usd + aggregated_po`.  The
pipeline computes the masked "unmatched" copies of the extraction arrays after
each stage and passes them on, exactly as the source does — and, exactly as in
the source, the optimized matchers never read those parameters.  Aggregated PO
matching is disabled (`aggregated_po_matches = []`). -/
def allMatchesConcat (mapping : List (String × String)) (f1 f2 : FileData) : List MatchRec :=
  let narrationMatches := find_narration_matches_optimized f1 f2
  let lcU1 := maskMatched f1.lcArr (matchedIndices1 [narrationMatches])
  let lcU2 := maskMatched f2.lcArr (matchedIndices2 [narrationMatches])
  let lcMatches := find_lc_matches_optimized f1 f2 lcU1 lcU2
  let poU1 := maskMatched f1.poArr (matchedIndices1 [narrationMatches, lcMatches])
  let poU2 := maskMatched f2.poArr (matchedIndices2 [narrationMatches, lcMatches])
  let poMatches := find_po_matches_optimized f1 f2 poU1 poU2
  let iuU1 := maskMatched f1.iuArr (matchedIndices1 [narrationMatches, lcMatches, poMatches])
  let iuU2 := maskMatched f2.iuArr (matchedIndices2 [narrationMatches, lcMatches, poMatches])
  let interunitMatches := find_interunit_matches_optimized mapping f1 f2 iuU1 iuU2
  let usdU1 := maskMatched f1.usdArr
    (matchedIndices1 [narrationMatches, lcMatches, poMatches, interunitMatches])
  let usdU2 := maskMatched f2.usdArr
    (matchedIndices2 [narrationMatches, lcMatches, poMatches, interunitMatches])
  let usdMatches := find_usd_matches_optimized f1 f2 usdU1 usdU2
  let aggregatedPoMatches : List MatchRec := []
  narrationMatches ++ lcMatches ++ poMatches ++ interunitMatches ++ usdMatches ++
    aggregatedPoMatches

/-- `ExcelTransactionMatcher.find_potential_matches`
(interunit_loan_matcher.py:1516-1542 for the final phase): run the cascade,
assign `M001, M002, …` sequentially in concatenation order, then sort by the
assigned match id. -/
def find_potential_matches (mapping : List (String × String)) (f1 f2 : FileData) :
    List MatchRec :=
  sortByMid (assignIdsFrom 1 (allMatchesConcat mapping f1 f2))

/-- The failure classification of the grid loader per the spec's error
taxonomy: the file is unreadable, or it has fewer than nine rows. -/
inductive MalformedInput where
  | unreadable : MalformedInput
  | tooFewRows : MalformedInput
  deriving DecidableEq

/-- The successful result of `read_complex_excel`: eight metadata rows, the
column-header row, and the transaction grid. -/
structure LoadedGrid where
  metadata : List (List (Option String))
  headerRow : List (Option String)
  grid : List (List (Option String))
  deriving DecidableEq

/-- `ExcelTransactionMatcher.read_complex_excel`
(interunit_loan_matcher.py:126-141).  `none` input models a file
`pd.read_excel` cannot open (it raises).  Otherwise rows 0–7 are metadata and
row 8 becomes the header of the remaining grid; with fewer than nine rows,
`transactions.iloc[0]` on the empty frame raises, so nothing is returned. -/
def read_complex_excel (input : Option (List (List (Option String)))) :
    Except MalformedInput LoadedGrid :=
  match input with
  | none => .error .unreadable
  | some fullRows =>
    match fullRows.drop 8 with
    | [] => .error .tooFewRows
    | hdr :: grid => .ok { metadata := fullRows.take 8, headerRow := hdr, grid := grid }

/-- The `Match ID` column of one output file during the annotation loop of
`create_matched_files` (interunit_loan_matcher.py:1959-2013), plus the
conflict warnings printed so far (row, existing id, attempted id). -/
structure AnnotState where
  cells : List (Option String)
  warnings : List (Nat × String × String)
  deriving DecidableEq

/-- One iteration of the annotation loop of `create_matched_files`
(interunit_loan_matcher.py:1970-1984): inside the bounds check, a row whose
`Match ID` cell is `NaN` or `""` receives the match id; otherwise the existing
id is kept and a conflict warning is recorded. -/
def annotateStep (matchId : String) (s : AnnotState) (r : Nat) : AnnotState :=
  if r < s.cells.length then
    match s.cells.getD r none with
    | none => { s with cells := s.cells.set r (some matchId) }
    | some v =>
      if v = "" then { s with cells := s.cells.set r (some matchId) }
      else { s with warnings := s.warnings ++ [(r, v, matchId)] }
  else s

/-- One match's annotation pass over its transaction-block rows. -/
def annotateBlockRows (blockRows : List Nat) (matchId : String) (st : AnnotState) :
    AnnotState :=
  blockRows.foldl (annotateStep matchId) st

/-- The whole annotation loop for one file: matches are processed in
sequential id order, each writing over its block's rows.  `blockRowsOf`
abstracts the call `self.block_identifier.get_transaction_block_rows`, which
maps a match's row index to its block's row indices. -/
def annotateMatches (blockRowsOf : Nat → List Nat) (ms : List (String × Nat))
    (st : AnnotState) : AnnotState :=
  ms.foldl (fun s m => annotateBlockRows (blockRowsOf m.2) m.1 s) st

/-- Fresh `Match ID` column for a file of `n` rows. -/
def initialAnnot (n : Nat) : AnnotState :=
  { cells := List.replicate n none, warnings := [] }

/-- The pair `(i, j)` of DataFrame row indices is accepted by a strategy
output. -/
def pairAccepted (l : List MatchRec) (i j : Nat) : Prop :=
  ∃ m ∈ l, m.file1Index = i ∧ m.file2Index = j

/-- Modelled from the spec: the naive nested-loop semantics of the LC strategy
— iterate every File 1 row against every File 2 row and accept a pair exactly
when both references are truthy and equal, the sides are opposite and the
amounts exactly equal.  This follows the spec's words and is compared with
`find_lc_matches_optimized`. -/
def lc_matches_naive (f1 f2 : FileData) : List MatchRec :=
  (List.range f1.rows.length).flatMap (fun i =>
    (List.range f2.rows.length).filterMap (fun j =>
      if refCond (lcAt f1 i) (lcAt f2 j) &&
         ((decide (0 < dAmt f1 i) && decide (dAmt f1 i = cAmt f2 j)) ||
          (decide (0 < cAmt f1 i) && decide (cAmt f1 i = dAmt f2 j))) then
        some { mtype := "LC", file1Index := i, file2Index := j,
               amount := if 0 < dAmt f1 i && dAmt f1 i = cAmt f2 j then dAmt f1 i else cAmt f1 i,
               evidence := (lcAt f1 i).getD "" }
      else none))

/-- Modelled from the spec: the naive nested-loop semantics of the Narration
strategy, with the same per-pair validation as the optimized matcher. -/
def narration_matches_naive (f1 f2 : FileData) : List MatchRec :=
  (List.range f1.rows.length).flatMap (fun i =>
    (List.range f2.rows.length).filterMap (fun j =>
      if narrCond (narrAt f1 i) (narrAt f2 j) &&
         ((decide (0 < dAmt f1 i) && decide (dAmt f1 i = cAmt f2 j)) ||
          (decide (0 < cAmt f1 i) && decide (cAmt f1 i = dAmt f2 j))) then
        some { mtype := "Narration", file1Index := i, file2Index := j,
               amount := if 0 < dAmt f1 i && dAmt f1 i = cAmt f2 j then dAmt f1 i else cAmt f1 i,
               evidence := narrAt f1 i }
      else none))

/-- A match with its id erased, for comparing pipeline output with the raw
strategy concatenation. -/
def stripMid (m : MatchRec) : MatchRec := { m with mid := none }

lemma mem_lendersAt {f : FileData} {a : ℚ} {i : Nat} :
    i ∈ lendersAt f a ↔ i < f.rows.length ∧ 0 < dAmt f i ∧ dAmt f i = a := by
  simp [lendersAt, List.mem_filter, List.mem_range, and_assoc]

lemma mem_borrowersAt {f : FileData} {a : ℚ} {i : Nat} :
    i ∈ borrowersAt f a ↔ i < f.rows.length ∧ 0 < cAmt f i ∧ cAmt f i = a := by
  simp [borrowersAt, List.mem_filter, List.mem_range, and_assoc]

lemma mem_keysList {f : FileData} {a : ℚ} :
    a ∈ keysList f ↔ ∃ i, i < f.rows.length ∧
      ((0 < dAmt f i ∧ dAmt f i = a) ∨ (0 < cAmt f i ∧ cAmt f i = a)) := by
  simp only [keysList, List.mem_dedup, List.mem_flatMap, List.mem_range, List.mem_append]
  constructor
  · rintro ⟨i, hi, h | h⟩
    · by_cases hd : 0 < dAmt f i
      · have ha : a = dAmt f i := by simpa [hd] using h
        exact ⟨i, hi, Or.inl ⟨hd, ha.symm⟩⟩
      · simp [hd] at h
    · by_cases hc : 0 < cAmt f i
      · have ha : a = cAmt f i := by simpa [hc] using h
        exact ⟨i, hi, Or.inr ⟨hc, ha.symm⟩⟩
      · simp [hc] at h
  · rintro ⟨i, hi, h | h⟩
    · refine ⟨i, hi, Or.inl ?_⟩
      rw [if_pos h.1]
      simp [h.2]
    · refine ⟨i, hi, Or.inr ?_⟩
      rw [if_pos h.1]
      simp [h.2]

lemma mem_commonAmounts {f1 f2 : FileData} {a : ℚ} :
    a ∈ commonAmounts f1 f2 ↔ a ∈ keysList f1 ∧ a ∈ keysList f2 := by
  simp [commonAmounts, List.mem_filter]

lemma lendersAt_mem_keys {f : FileData} {a : ℚ} {i : Nat} (h : i ∈ lendersAt f a) :
    a ∈ keysList f := by
  rcases mem_lendersAt.mp h with ⟨hi, hd, ha⟩
  exact mem_keysList.mpr ⟨i, hi, Or.inl ⟨hd, ha⟩⟩

lemma borrowersAt_mem_keys {f : FileData} {a : ℚ} {i : Nat} (h : i ∈ borrowersAt f a) :
    a ∈ keysList f := by
  rcases mem_borrowersAt.mp h with ⟨hi, hc, ha⟩
  exact mem_keysList.mpr ⟨i, hi, Or.inr ⟨hc, ha⟩⟩

lemma mem_bucketPairs {f1 f2 : FileData} {condF condR : Nat → Nat → Bool}
    {mkF mkR : Nat → Nat → ℚ → MatchRec} {m : MatchRec} :
    m ∈ bucketPairs f1 f2 condF mkF condR mkR ↔
      (∃ a li bi, li ∈ lendersAt f1 a ∧ bi ∈ borrowersAt f2 a ∧ condF li bi = true ∧
        m = mkF li bi a) ∨
      (∃ a li bi, li ∈ lendersAt f2 a ∧ bi ∈ borrowersAt f1 a ∧ condR li bi = true ∧
        m = mkR li bi a) := by
  simp only [bucketPairs, List.mem_flatMap, List.mem_append, List.mem_filterMap]
  constructor
  · rintro ⟨a, _, ⟨li, hli, bi, hbi, hmk⟩ | ⟨li, hli, bi, hbi, hmk⟩⟩
    · by_cases hc : condF li bi
      · exact Or.inl ⟨a, li, bi, hli, hbi, hc, by simpa [hc] using hmk.symm⟩
      · simp [hc] at hmk
    · by_cases hc : condR li bi
      · exact Or.inr ⟨a, li, bi, hli, hbi, hc, by simpa [hc] using hmk.symm⟩
      · simp [hc] at hmk
  · rintro (⟨a, li, bi, hli, hbi, hc, hm⟩ | ⟨a, li, bi, hli, hbi, hc, hm⟩)
    · refine ⟨a, mem_commonAmounts.mpr ⟨lendersAt_mem_keys hli, borrowersAt_mem_keys hbi⟩,
        Or.inl ⟨li, hli, bi, hbi, ?_⟩⟩
      simp [hc, hm]
    · refine ⟨a, mem_commonAmounts.mpr ⟨borrowersAt_mem_keys hbi, lendersAt_mem_keys hli⟩,
        Or.inr ⟨li, hli, bi, hbi, ?_⟩⟩
      simp [hc, hm]

lemma mem_sortInsert {m x : MatchRec} {l : List MatchRec} :
    x ∈ sortInsert m l ↔ x = m ∨ x ∈ l := by
  induction l with
  | nil => simp [sortInsert]
  | cons y ys ih =>
    by_cases h : strLtb (midKey y) (midKey m)
    · simp only [sortInsert, if_pos h, List.mem_cons, ih]
      tauto
    · simp only [sortInsert, if_neg h, List.mem_cons]

lemma mem_sortByMid {m : MatchRec} {l : List MatchRec} :
    m ∈ sortByMid l ↔ m ∈ l := by
  induction l with
  | nil => simp [sortByMid]
  | cons x xs ih =>
    show m ∈ sortInsert x (sortByMid xs) ↔ _
    rw [mem_sortInsert]
    simp [ih]

lemma mem_assignIdsFrom {m : MatchRec} {k : Nat} {l : List MatchRec} :
    m ∈ assignIdsFrom k l → ∃ m0 ∈ l, ∃ s, m = { m0 with mid := s } := by
  induction l generalizing k with
  | nil => simp [assignIdsFrom]
  | cons x xs ih =>
    intro h
    rcases List.mem_cons.mp h with h | h
    · exact ⟨x, List.mem_cons_self x xs, some (formatMid k), h⟩
    · rcases ih h with ⟨m0, hm0, s, hs⟩
      exact ⟨m0, List.mem_cons_of_mem x hm0, s, hs⟩

lemma assignIdsFrom_map_mid (k : Nat) (l : List MatchRec) :
    (assignIdsFrom k l).map MatchRec.mid =
      (List.range' k l.length).map (fun n => some (formatMid n)) := by
  induction l generalizing k with
  | nil => simp [assignIdsFrom]
  | cons x xs ih => simp [assignIdsFrom, List.range'_succ, ih]

lemma assignIdsFrom_map_strip (k : Nat) (l : List MatchRec) :
    (assignIdsFrom k l).map stripMid = l.map stripMid := by
  induction l generalizing k with
  | nil => simp [assignIdsFrom]
  | cons x xs ih => simp [assignIdsFrom, stripMid, ih]

lemma mid_of_mem_assignIdsFrom {m : MatchRec} {k : Nat} {l : List MatchRec} :
    m ∈ assignIdsFrom k l → ∃ n, k ≤ n ∧ n < k + l.length ∧ m.mid = some (formatMid n) := by
  induction l generalizing k with
  | nil => simp [assignIdsFrom]
  | cons x xs ih =>
    intro h
    rcases List.mem_cons.mp h with h | h
    · exact ⟨k, le_refl k, by simp, by simp [h]⟩
    · rcases ih h with ⟨n, h1, h2, h3⟩
      exact ⟨n, by omega, by simp at h2 ⊢; omega, h3⟩

lemma digitChar_toNat : ∀ d, d < 10 → (digitChar d).toNat = 48 + d := by decide

lemma charsLtb_cons (a b : Char) (as bs : List Char) :
    charsLtb (a :: as) (b :: bs) =
      if a.toNat < b.toNat then true
      else if b.toNat < a.toNat then false
      else charsLtb as bs := rfl

lemma charsLtb_asymm : ∀ {a b : List Char}, charsLtb a b = true → charsLtb b a = false
  | [], [], h => by simp [charsLtb] at h
  | [], _ :: _, _ => rfl
  | _ :: _, [], h => by simp [charsLtb] at h
  | a :: as, b :: bs, h => by
    rw [charsLtb_cons] at h
    rw [charsLtb_cons]
    by_cases h1 : a.toNat < b.toNat
    · rw [if_neg (by omega), if_pos h1]
    · by_cases h2 : b.toNat < a.toNat
      · rw [if_neg h1, if_pos h2] at h
        exact absurd h (by simp)
      · rw [if_neg h1, if_neg h2] at h
        rw [if_neg h2, if_neg h1]
        exact charsLtb_asymm h

lemma strLtb_asymm {s t : String} (h : strLtb s t = true) : strLtb t s = false :=
  charsLtb_asymm h

lemma formatMid_lt {m n : Nat} (hmn : m < n) (hn : n ≤ 999) :
    strLtb (formatMid m) (formatMid n) = true := by
  have hm' : m < 1000 := by omega
  have hn' : n < 1000 := by omega
  have e1 := digitChar_toNat (m / 100 % 10) (Nat.mod_lt _ (by omega))
  have e2 := digitChar_toNat (m / 10 % 10) (Nat.mod_lt _ (by omega))
  have e3 := digitChar_toNat (m % 10) (Nat.mod_lt _ (by omega))
  have e4 := digitChar_toNat (n / 100 % 10) (Nat.mod_lt _ (by omega))
  have e5 := digitChar_toNat (n / 10 % 10) (Nat.mod_lt _ (by omega))
  have e6 := digitChar_toNat (n % 10) (Nat.mod_lt _ (by omega))
  rw [formatMid, formatMid, if_pos hm', if_pos hn']
  show charsLtb _ _ = true
  rw [charsLtb_cons]
  rw [if_neg (by decide), if_neg (by decide)]
  rw [charsLtb_cons]
  simp only [e1, e4]
  rcases (by omega :
      (m / 100 % 10 < n / 100 % 10) ∨
      (m / 100 % 10 = n / 100 % 10 ∧ m / 10 % 10 < n / 10 % 10) ∨
      (m / 100 % 10 = n / 100 % 10 ∧ m / 10 % 10 = n / 10 % 10 ∧ m % 10 < n % 10)) with
    h | ⟨ha, h⟩ | ⟨ha, hb, h⟩
  · rw [if_pos (by omega)]
  · rw [if_neg (by omega), if_neg (by omega), charsLtb_cons]
    simp only [e2, e5]
    rw [if_pos (by omega)]
  · rw [if_neg (by omega), if_neg (by omega), charsLtb_cons]
    simp only [e2, e5]
    rw [if_neg (by omega), if_neg (by omega), charsLtb_cons]
    simp only [e3, e6]
    rw [if_pos (by omega)]

lemma assignIdsFrom_pairwise (l : List MatchRec) :
    ∀ k, 1 ≤ k → k + l.length ≤ 1000 →
    (assignIdsFrom k l).Pairwise (fun x y => strLtb (midKey x) (midKey y) = true) := by
  induction l with
  | nil =>
    intro k _ _
    simp [assignIdsFrom]
  | cons x xs ih =>
    intro k hk hb
    simp only [assignIdsFrom, List.pairwise_cons]
    constructor
    · intro y hy
      rcases mid_of_mem_assignIdsFrom hy with ⟨n, h1, h2, h3⟩
      have hy' : midKey y = formatMid n := by simp [midKey, h3]
      have hx : midKey { x with mid := some (formatMid k) } = formatMid k := rfl
      rw [hx, hy']
      refine formatMid_lt (by omega) ?_
      simp only [List.length_cons] at hb
      omega
    · refine ih (k + 1) (by omega) ?_
      simp only [List.length_cons] at hb
      omega

lemma sortByMid_eq_of_pairwise {l : List MatchRec}
    (h : l.Pairwise (fun x y => strLtb (midKey x) (midKey y) = true)) : sortByMid l = l := by
  induction l with
  | nil => rfl
  | cons x xs ih =>
    rcases List.pairwise_cons.mp h with ⟨hx, hxs⟩
    show sortInsert x (sortByMid xs) = x :: xs
    rw [ih hxs]
    cases xs with
    | nil => rfl
    | cons y ys =>
      have hlt : strLtb (midKey x) (midKey y) = true := hx y (List.mem_cons_self y ys)
      have hf : strLtb (midKey y) (midKey x) = false := strLtb_asymm hlt
      simp [sortInsert, hf]

lemma charsLtb_irrefl : ∀ l : List Char, charsLtb l l = false
  | [] => rfl
  | a :: as => by
    rw [charsLtb_cons, if_neg (by omega), if_neg (by omega)]
    exact charsLtb_irrefl as

lemma formatMid_injOn {m n : Nat} (hm : m ≤ 999) (hn : n ≤ 999)
    (h : formatMid m = formatMid n) : m = n := by
  rcases Nat.lt_trichotomy m n with hlt | heq | hgt
  · have h1 := formatMid_lt hlt hn
    rw [h] at h1
    have h2 := charsLtb_irrefl (formatMid n).data
    rw [show strLtb (formatMid n) (formatMid n) = charsLtb (formatMid n).data (formatMid n).data
      from rfl] at h1
    rw [h1] at h2
    cases h2
  · exact heq
  · have h1 := formatMid_lt hgt hm
    rw [h] at h1
    have h2 := charsLtb_irrefl (formatMid n).data
    rw [show strLtb (formatMid n) (formatMid n) = charsLtb (formatMid n).data (formatMid n).data
      from rfl] at h1
    rw [h1] at h2
    cases h2

/-- Example ledger pair: File 1 has one lender row of amount 100 whose block
carries both a long narration and the LC reference `LC-1`; File 2 has the
matching borrower row with the identical narration and the same LC
reference. -/
def exRowLend : Row := { descStr := some "SHARED NARRATION TEXT", debitStr := some "100" }

/-- The matching borrower row of the example. -/
def exRowBorrow : Row := { descStr := some "SHARED NARRATION TEXT", creditStr := some "100" }

/-- Example File 1 state. -/
def exF1 : FileData :=
  { rows := [exRowLend], lcArr := [some "LC-1"], poArr := [none],
    usdArr := [none], iuArr := [none] }

/-- Example File 2 state. -/
def exF2 : FileData :=
  { rows := [exRowBorrow], lcArr := [some "LC-1"], poArr := [none],
    usdArr := [none], iuArr := [none] }

/-- C4: for a run producing K matches, the assigned match ids are exactly
M001 … M{K:03d} with no gaps or repeats; they are assigned only after all
strategies finish, sequentially from 1 in the order of the strategy
concatenation (Narration, LC, PO, Interunit, USD), and the final output is
that concatenation ordered by ascending match id.  (Stated for K ≤ 999 runs,
where the string sort on ids coincides with numeric order.) -/
theorem c4_sequential_match_ids (mapping : List (String × String)) (f1 f2 : FileData)
    (hK : (allMatchesConcat mapping f1 f2).length ≤ 999) :
    (find_potential_matches mapping f1 f2).map MatchRec.mid =
      (List.range' 1 (allMatchesConcat mapping f1 f2).length).map (fun n => some (formatMid n))
    ∧ (find_potential_matches mapping f1 f2).map stripMid =
      (allMatchesConcat mapping f1 f2).map stripMid
    ∧ ((find_potential_matches mapping f1 f2).map MatchRec.mid).Nodup
    ∧ (∀ s : String, some s ∈ (find_potential_matches mapping f1 f2).map MatchRec.mid ↔
        ∃ n, 1 ≤ n ∧ n ≤ (allMatchesConcat mapping f1 f2).length ∧ s = formatMid n) := by
  have hsort : find_potential_matches mapping f1 f2 =
      assignIdsFrom 1 (allMatchesConcat mapping f1 f2) := by
    show sortByMid _ = _
    exact sortByMid_eq_of_pairwise (assignIdsFrom_pairwise _ 1 (le_refl 1) (by omega))
  rw [hsort]
  refine ⟨assignIdsFrom_map_mid 1 _, assignIdsFrom_map_strip 1 _, ?_, ?_⟩
  · rw [assignIdsFrom_map_mid]
    refine List.Nodup.map_on ?_ (List.nodup_range' 1 _)
    intro x hx y hy hxy
    rw [List.mem_range'_1] at hx hy
    exact formatMid_injOn (by omega) (by omega) (by simpa using hxy)
  · intro s
    rw [assignIdsFrom_map_mid]
    simp only [List.mem_map, List.mem_range'_1]
    constructor
    · rintro ⟨n, ⟨h1, h2⟩, h3⟩
      exact ⟨n, h1, by omega, by simpa using h3.symm⟩
    · rintro ⟨n, h1, h2, h3⟩
      exact ⟨n, ⟨h1, by omega⟩, by simp [h3]⟩

/-- C4 witness: the theorem applied to the concrete example run, which
produces two matches, M001 and M002. -/
theorem c4_sequential_match_ids_witness :
    (find_potential_matches [] exF1 exF2).map MatchRec.mid =
      (List.range' 1 (allMatchesConcat [] exF1 exF2).length).map (fun n => some (formatMid n)) :=
  (c4_sequential_match_ids [] exF1 exF2 (by decide)).1

/-- C1 (code bug): on the example run the Narration strategy claims the only
block pair as M001, and the LC strategy claims the very same blocks again as
M002 — the same header rows appear in matches of two different strategies.
The pipeline computes masked "unmatched" arrays after the Narration stage, but
the optimized matchers never read those parameters, so the exclusion is
ineffective. -/
theorem c1_priority_exclusivity_violated :
    (find_potential_matches [] exF1 exF2).map
        (fun m => (m.mtype, m.file1Index, m.file2Index)) =
      [("Narration", 0, 0), ("LC", 0, 0)]
    ∧ ∃ m1 ∈ find_potential_matches [] exF1 exF2,
        ∃ m2 ∈ find_potential_matches [] exF1 exF2,
          m1.mtype ≠ m2.mtype ∧ m1.file1Index = m2.file1Index ∧
          m1.file2Index = m2.file2Index :=
  ⟨by decide, by decide⟩

lemma pairAccepted_bucket {f1 f2 : FileData} {condF condR : Nat → Nat → Bool}
    {mkF mkR : Nat → Nat → ℚ → MatchRec} {i j : Nat}
    (hkF : ∀ li bi a, (mkF li bi a).file1Index = li ∧ (mkF li bi a).file2Index = bi)
    (hkR : ∀ li bi a, (mkR li bi a).file1Index = bi ∧ (mkR li bi a).file2Index = li) :
    pairAccepted (bucketPairs f1 f2 condF mkF condR mkR) i j ↔
      i < f1.rows.length ∧ j < f2.rows.length ∧
        ((0 < dAmt f1 i ∧ dAmt f1 i = cAmt f2 j ∧ condF i j = true) ∨
         (0 < cAmt f1 i ∧ cAmt f1 i = dAmt f2 j ∧ condR j i = true)) := by
  constructor
  · rintro ⟨m, hm, hi, hj⟩
    rcases mem_bucketPairs.mp hm with ⟨a, li, bi, hl, hb, hc, hmk⟩ |
      ⟨a, li, bi, hl, hb, hc, hmk⟩
    · have hli : li = i := by rw [hmk] at hi; rw [(hkF li bi a).1] at hi; exact hi
      have hbi : bi = j := by rw [hmk] at hj; rw [(hkF li bi a).2] at hj; exact hj
      subst hli
      subst hbi
      rcases mem_lendersAt.mp hl with ⟨h1, h2, h3⟩
      rcases mem_borrowersAt.mp hb with ⟨h4, h5, h6⟩
      exact ⟨h1, h4, Or.inl ⟨h2, by rw [h3, h6], hc⟩⟩
    · have hbi : bi = i := by rw [hmk] at hi; rw [(hkR li bi a).1] at hi; exact hi
      have hli : li = j := by rw [hmk] at hj; rw [(hkR li bi a).2] at hj; exact hj
      subst hli
      subst hbi
      rcases mem_lendersAt.mp hl with ⟨h1, h2, h3⟩
      rcases mem_borrowersAt.mp hb with ⟨h4, h5, h6⟩
      exact ⟨h4, h1, Or.inr ⟨h5, by rw [h6, h3], hc⟩⟩
  · rintro ⟨h1, h2, ⟨hd, he, hc⟩ | ⟨hd, he, hc⟩⟩
    · refine ⟨mkF i j (dAmt f1 i), mem_bucketPairs.mpr (Or.inl
        ⟨dAmt f1 i, i, j, mem_lendersAt.mpr ⟨h1, hd, rfl⟩,
          mem_borrowersAt.mpr ⟨h2, he ▸ hd, he.symm⟩, hc, rfl⟩),
        (hkF i j _).1, (hkF i j _).2⟩
    · refine ⟨mkR j i (cAmt f1 i), mem_bucketPairs.mpr (Or.inr
        ⟨cAmt f1 i, j, i, mem_lendersAt.mpr ⟨h2, he ▸ hd, he.symm⟩,
          mem_borrowersAt.mpr ⟨h1, hd, rfl⟩, hc, rfl⟩),
        (hkR j i _).1, (hkR j i _).2⟩

lemma pairAccepted_lc_naive {f1 f2 : FileData} {i j : Nat} :
    pairAccepted (lc_matches_naive f1 f2) i j ↔
      i < f1.rows.length ∧ j < f2.rows.length ∧ refCond (lcAt f1 i) (lcAt f2 j) = true ∧
        ((0 < dAmt f1 i ∧ dAmt f1 i = cAmt f2 j) ∨
         (0 < cAmt f1 i ∧ cAmt f1 i = dAmt f2 j)) := by
  unfold pairAccepted lc_matches_naive
  simp only [List.mem_flatMap, List.mem_filterMap, List.mem_range,
    Option.ite_none_right_eq_some, Option.some_inj, Bool.and_eq_true, Bool.or_eq_true,
    decide_eq_true_eq]
  constructor
  · rintro ⟨m, ⟨i0, hi0, j0, hj0, ⟨hrc, hdir⟩, hmk⟩, hfi, hfj⟩
    rw [← hmk] at hfi hfj
    simp only at hfi hfj
    subst hfi
    subst hfj
    exact ⟨hi0, hj0, hrc, hdir⟩
  · rintro ⟨h1, h2, hrc, hdir⟩
    exact ⟨_, ⟨i, h1, j, h2, ⟨hrc, hdir⟩, rfl⟩, rfl, rfl⟩

lemma pairAccepted_narration_naive {f1 f2 : FileData} {i j : Nat} :
    pairAccepted (narration_matches_naive f1 f2) i j ↔
      i < f1.rows.length ∧ j < f2.rows.length ∧
        narrCond (narrAt f1 i) (narrAt f2 j) = true ∧
        ((0 < dAmt f1 i ∧ dAmt f1 i = cAmt f2 j) ∨
         (0 < cAmt f1 i ∧ cAmt f1 i = dAmt f2 j)) := by
  unfold pairAccepted narration_matches_naive
  simp only [List.mem_flatMap, List.mem_filterMap, List.mem_range,
    Option.ite_none_right_eq_some, Option.some_inj, Bool.and_eq_true, Bool.or_eq_true,
    decide_eq_true_eq]
  constructor
  · rintro ⟨m, ⟨i0, hi0, j0, hj0, ⟨hrc, hdir⟩, hmk⟩, hfi, hfj⟩
    rw [← hmk] at hfi hfj
    simp only at hfi hfj
    subst hfi
    subst hfj
    exact ⟨hi0, hj0, hrc, hdir⟩
  · rintro ⟨h1, h2, hrc, hdir⟩
    exact ⟨_, ⟨i, h1, j, h2, ⟨hrc, hdir⟩, rfl⟩, rfl, rfl⟩

lemma narrCond_comm {a b : String} : narrCond a b = narrCond b a := by
  simp only [narrCond, narrOkStr]
  by_cases h : a = b
  · rw [h]
  · have h1 : (a == b) = false := by simp [h]
    have h2 : (b == a) = false := by simp [Ne.symm h]
    rw [h1, h2]
    simp

/-- C2, amended: the amount-bucket optimized LC and Narration matchers accept
exactly the pairs of the naive nested-loop semantics with the same per-pair
validation (and, like the nested loop, without any within-strategy reuse
exclusion). -/
theorem c2_optimized_equals_naive (f1 f2 : FileData) (u1 u2 : List (Option String))
    (i j : Nat) :
    (pairAccepted (find_lc_matches_optimized f1 f2 u1 u2) i j ↔
      pairAccepted (lc_matches_naive f1 f2) i j)
    ∧ (pairAccepted (find_narration_matches_optimized f1 f2) i j ↔
      pairAccepted (narration_matches_naive f1 f2) i j) := by
  constructor
  · rw [pairAccepted_lc_naive]
    unfold find_lc_matches_optimized
    rw [pairAccepted_bucket (fun li bi a => ⟨rfl, rfl⟩) (fun li bi a => ⟨rfl, rfl⟩)]
    constructor
    · rintro ⟨h1, h2, ⟨hd, he, hc⟩ | ⟨hd, he, hc⟩⟩
      · exact ⟨h1, h2, hc, Or.inl ⟨hd, he⟩⟩
      · exact ⟨h1, h2, hc, Or.inr ⟨hd, he⟩⟩
    · rintro ⟨h1, h2, hc, ⟨hd, he⟩ | ⟨hd, he⟩⟩
      · exact ⟨h1, h2, Or.inl ⟨hd, he, hc⟩⟩
      · exact ⟨h1, h2, Or.inr ⟨hd, he, hc⟩⟩
  · rw [pairAccepted_narration_naive]
    unfold find_narration_matches_optimized
    rw [pairAccepted_bucket (fun li bi a => ⟨rfl, rfl⟩) (fun li bi a => ⟨rfl, rfl⟩)]
    constructor
    · rintro ⟨h1, h2, ⟨hd, he, hc⟩ | ⟨hd, he, hc⟩⟩
      · exact ⟨h1, h2, hc, Or.inl ⟨hd, he⟩⟩
      · exact ⟨h1, h2, narrCond_comm.symm ▸ hc, Or.inr ⟨hd, he⟩⟩
    · rintro ⟨h1, h2, hc, ⟨hd, he⟩ | ⟨hd, he⟩⟩
      · exact ⟨h1, h2, Or.inl ⟨hd, he, hc⟩⟩
      · exact ⟨h1, h2, Or.inr ⟨hd, he, narrCond_comm ▸ hc⟩⟩

/-- C2 counterexample input: File 1 has two lender rows of amount 100 both
referencing `LC-9`; File 2 has a single borrower row of amount 100 with the
same reference. -/
def c2F1 : FileData :=
  { rows := [{ debitStr := some "100" }, { debitStr := some "100" }],
    lcArr := [some "LC-9", some "LC-9"] }

/-- C2 counterexample input, File 2 side. -/
def c2F2 : FileData :=
  { rows := [{ creditStr := some "100" }], lcArr := [some "LC-9"] }

/-- C2 counterexample: the LC strategy accepts two matches that reuse the same
File 2 block — there is no within-strategy dedup. -/
theorem c2_block_reuse_counterexample :
    (find_lc_matches_optimized c2F1 c2F2 [] []).map
        (fun m => (m.file1Index, m.file2Index)) = [(0, 0), (1, 0)]
    ∧ ∃ m1 ∈ find_lc_matches_optimized c2F1 c2F2 [] [],
        ∃ m2 ∈ find_lc_matches_optimized c2F1 c2F2 [] [],
          m1.file1Index ≠ m2.file1Index ∧ m1.file2Index = m2.file2Index :=
  ⟨by decide, by decide⟩

lemma narrCond_iff {a b : String} :
    narrCond a b = true ↔
      10 < a.data.length ∧ pyLower a ≠ "nan" ∧ pyLower a ≠ "none" ∧ pyLower a ≠ "" ∧
      10 < b.data.length ∧ pyLower b ≠ "nan" ∧ pyLower b ≠ "none" ∧ pyLower b ≠ "" ∧
      a = b := by
  simp only [narrCond, narrOkStr, Bool.and_eq_true, decide_eq_true_eq, Bool.not_eq_true',
    beq_eq_false_iff_ne, beq_iff_eq]
  tauto

/-- C5, amended: the Narration strategy accepts a pair exactly when the
stripped narration texts are byte-exact equal, longer than ten characters and
not `nan`/`none`/empty, with opposite sides and exactly equal amounts; since
both texts are compared after stripping, two blocks whose raw narration cells
differ only by trailing whitespace DO match. -/
theorem c5_narration_matching_characterization (f1 f2 : FileData) (i j : Nat) :
    pairAccepted (find_narration_matches_optimized f1 f2) i j ↔
      i < f1.rows.length ∧ j < f2.rows.length ∧
      narrAt f1 i = narrAt f2 j ∧
      10 < (narrAt f1 i).data.length ∧
      pyLower (narrAt f1 i) ≠ "nan" ∧ pyLower (narrAt f1 i) ≠ "none" ∧
      pyLower (narrAt f1 i) ≠ "" ∧
      ((0 < dAmt f1 i ∧ dAmt f1 i = cAmt f2 j) ∨
       (0 < cAmt f1 i ∧ cAmt f1 i = dAmt f2 j)) := by
  unfold find_narration_matches_optimized
  rw [pairAccepted_bucket (fun li bi a => ⟨rfl, rfl⟩) (fun li bi a => ⟨rfl, rfl⟩)]
  constructor
  · rintro ⟨h1, h2, ⟨hd, he, hc⟩ | ⟨hd, he, hc⟩⟩
    · rcases narrCond_iff.mp hc with ⟨n1, n2, n3, n4, _, _, _, _, neq⟩
      exact ⟨h1, h2, neq, n1, n2, n3, n4, Or.inl ⟨hd, he⟩⟩
    · rcases narrCond_iff.mp hc with ⟨_, _, _, _, n1, n2, n3, n4, neq⟩
      exact ⟨h1, h2, neq.symm, n1, n2, n3, n4, Or.inr ⟨hd, he⟩⟩
  · rintro ⟨h1, h2, neq, n1, n2, n3, n4, ⟨hd, he⟩ | ⟨hd, he⟩⟩
    · refine ⟨h1, h2, Or.inl ⟨hd, he, narrCond_iff.mpr ?_⟩⟩
      rw [← neq]
      exact ⟨n1, n2, n3, n4, n1, n2, n3, n4, rfl⟩
    · refine ⟨h1, h2, Or.inr ⟨hd, he, narrCond_iff.mpr ?_⟩⟩
      rw [← neq]
      exact ⟨n1, n2, n3, n4, n1, n2, n3, n4, rfl⟩

/-- C5 counterexample input: File 1's narration cell carries one trailing
space that File 2's lacks; amounts are opposite and equal. -/
def c5F1 : FileData :=
  { rows := [{ descStr := some ("ABCDEFGHIJK" ++ " "), debitStr := some "7" }] }

/-- C5 counterexample input, File 2 side. -/
def c5F2 : FileData :=
  { rows := [{ descStr := some "ABCDEFGHIJK", creditStr := some "7" }] }

/-- C5 counterexample: the two narration cells differ by exactly one trailing
space, yet the Narration strategy DOES match them, because both texts are
stripped before the comparison. -/
theorem c5_trailing_space_counterexample :
    (c5F1.rows.getD 0 default).descStr = some ("ABCDEFGHIJK" ++ " ")
    ∧ (c5F2.rows.getD 0 default).descStr = some "ABCDEFGHIJK"
    ∧ (c5F1.rows.getD 0 default).descStr ≠ (c5F2.rows.getD 0 default).descStr
    ∧ (find_narration_matches_optimized c5F1 c5F2).map
        (fun m => (m.file1Index, m.file2Index)) = [(0, 0)] :=
  ⟨by decide, by decide, by decide, by decide⟩

lemma pyIsdigit_remDots (l : List Char) :
    pyIsdigit (remDots l) = (l.all (fun c => isDigitChar c || c == '.') && l.any isDigitChar) := by
  rw [Bool.eq_iff_iff]
  simp only [pyIsdigit, remDots, Bool.and_eq_true, Bool.not_eq_true', List.isEmpty_eq_false,
    List.all_eq_true, List.any_eq_true, List.mem_filter, Bool.or_eq_true, beq_iff_eq,
    bne_iff_ne, ne_eq]
  constructor
  · rintro ⟨hne, hall⟩
    have hex : ∃ c ∈ l, ¬c = '.' := by
      by_contra hc
      push_neg at hc
      exact hne (List.filter_eq_nil_iff.mpr (by simpa using hc))
    rcases hex with ⟨c, hc, hcd⟩
    refine ⟨fun x hx => ?_, c, hc, hall c ⟨hc, by simpa using hcd⟩⟩
    by_cases hxd : x = '.'
    · exact Or.inr hxd
    · exact Or.inl (hall x ⟨hx, by simpa using hxd⟩)
  · rintro ⟨hall, c, hc, hcd⟩
    have hcdot : ¬c = '.' := by
      intro h
      rw [h] at hcd
      exact absurd hcd (by decide)
    constructor
    · intro h
      have := List.filter_eq_nil_iff.mp h c hc
      simp [hcdot] at this
    · rintro x ⟨hx, hxd⟩
      rcases hall x hx with h | h
      · exact h
      · simp [h] at hxd

lemma parseField_eq_specAmount {l : List Char} (h : pyFloatRaises l = false) :
    parseField l = specAmount l := by
  have hiff := pyIsdigit_remDots l
  by_cases hd : pyIsdigit (remDots l) = true
  · have hcount : dotCount l ≤ 1 := by
      by_contra hc
      rw [pyFloatRaises, hd] at h
      simp at h
      omega
    have hacc : specAccepts l = true := by
      have h2 := hd
      rw [hiff, Bool.and_eq_true] at h2
      simp [specAccepts, h2.1, h2.2, hcount]
    rw [parseField, if_pos hd, specAmount, if_pos hacc]
  · have hd' : pyIsdigit (remDots l) = false := by simpa using hd
    have hacc : specAccepts l = false := by
      by_contra hc
      have hacc' : specAccepts l = true := by simpa using hc
      rw [specAccepts, Bool.and_eq_true, Bool.and_eq_true] at hacc'
      have htrue : pyIsdigit (remDots l) = true := by
        rw [hiff, Bool.and_eq_true]
        exact ⟨hacc'.1.1, hacc'.2⟩
      rw [htrue] at hd'
      cases hd'
    rw [parseField, if_neg (by simp [hd']), specAmount, if_neg (by simp [hacc])]

lemma bucketPairs_amount_pos {f1 f2 : FileData} {condF condR : Nat → Nat → Bool}
    {mkF mkR : Nat → Nat → ℚ → MatchRec} {m : MatchRec}
    (hkF : ∀ li bi a, (mkF li bi a).amount = a)
    (hkR : ∀ li bi a, (mkR li bi a).amount = a)
    (hm : m ∈ bucketPairs f1 f2 condF mkF condR mkR) : 0 < m.amount := by
  rcases mem_bucketPairs.mp hm with ⟨a, li, bi, hl, _, _, hmk⟩ | ⟨a, li, bi, hl, _, _, hmk⟩
  · rcases mem_lendersAt.mp hl with ⟨_, h2, h3⟩
    rw [hmk, hkF]
    rw [← h3]
    exact h2
  · rcases mem_lendersAt.mp hl with ⟨_, h2, h3⟩
    rw [hmk, hkR]
    rw [← h3]
    exact h2

/-- C10, amended: amount parsing strips commas and accepts per field exactly
the strings of digits with at most one decimal point — except that a
digits-and-dots field with two or more dots makes `float` raise and zeroes
BOTH amounts of the row; consequently a row enters the amount index as lender
(borrower) only with a strictly positive parsed debit (credit), and the shared
amount of every match of the amount-indexed strategies is strictly
positive. -/
theorem c10_amount_parsing_and_positivity :
    (∀ debitRaw creditRaw : Option String,
       extract_amounts_from_strings debitRaw creditRaw =
         if pyFloatRaises (stripCommas (debitRaw.getD "0").data) ||
            pyFloatRaises (stripCommas (creditRaw.getD "0").data) then (0, 0)
         else (specAmount (stripCommas (debitRaw.getD "0").data),
               specAmount (stripCommas (creditRaw.getD "0").data)))
    ∧ (∀ (f : FileData) (a : ℚ) (i : Nat), (i ∈ lendersAt f a ∨ i ∈ borrowersAt f a) → 0 < a)
    ∧ (∀ (f1 f2 : FileData) (u1 u2 : List (Option String)) (m : MatchRec),
         (m ∈ find_narration_matches_optimized f1 f2 ∨
          m ∈ find_lc_matches_optimized f1 f2 u1 u2 ∨
          m ∈ find_po_matches_optimized f1 f2 u1 u2 ∨
          m ∈ find_usd_matches_optimized f1 f2 u1 u2) → 0 < m.amount) := by
  refine ⟨?_, ?_, ?_⟩
  · intro debitRaw creditRaw
    show (if pyFloatRaises _ || pyFloatRaises _ then ((0 : ℚ), (0 : ℚ)) else _) = _
    by_cases hr : (pyFloatRaises (stripCommas (debitRaw.getD "0").data) ||
        pyFloatRaises (stripCommas (creditRaw.getD "0").data)) = true
    · rw [if_pos hr, if_pos hr]
    · have hr' := hr
      rw [Bool.or_eq_true] at hr'
      push_neg at hr'
      rw [if_neg hr, if_neg hr]
      rw [parseField_eq_specAmount (by simpa using hr'.1),
        parseField_eq_specAmount (by simpa using hr'.2)]
  · rintro f a i (h | h)
    · rcases mem_lendersAt.mp h with ⟨_, h2, h3⟩
      exact h3 ▸ h2
    · rcases mem_borrowersAt.mp h with ⟨_, h2, h3⟩
      exact h3 ▸ h2
  · rintro f1 f2 u1 u2 m (h | h | h | h)
    · exact bucketPairs_amount_pos (fun _ _ _ => rfl) (fun _ _ _ => rfl) h
    · exact bucketPairs_amount_pos (fun _ _ _ => rfl) (fun _ _ _ => rfl) h
    · exact bucketPairs_amount_pos (fun _ _ _ => rfl) (fun _ _ _ => rfl) h
    · exact bucketPairs_amount_pos (fun _ _ _ => rfl) (fun _ _ _ => rfl) h

/-- C10 witness: the theorem's positivity part applied to the concrete LC
match of the example run. -/
theorem c10_amount_positivity_witness :
    0 < ((find_lc_matches_optimized c2F1 c2F2 [] []).getD 0 default).amount :=
  c10_amount_parsing_and_positivity.2.2 c2F1 c2F2 [] [] _ (Or.inr (Or.inl (by decide)))

/-- C10 counterexample: a well-formed debit string `"5"` paired with the
malformed credit string `"1.2.3"` is coerced to `(0, 0)` — the malformed
credit zeroes the debit too, while the claimed per-field parsing keeps the
debit at 5. -/
theorem c10_cross_field_counterexample :
    extract_amounts_from_strings (some "5") (some "1.2.3") = (0, 0)
    ∧ specAmount (stripCommas "5".data) = 5
    ∧ specAmount (stripCommas "1.2.3".data) = 0
    ∧ extract_amounts_from_strings (some "5") (some "1.2.3") ≠
        (specAmount (stripCommas "5".data), specAmount (stripCommas "1.2.3".data)) :=
  ⟨by decide, by decide, by decide, by decide⟩

/-- C8: the grid loader fails exactly on an unreadable file or one with fewer
than nine rows, returning no partial result, and otherwise returns rows 0–7 as
metadata, row 8 as the column headers and rows 9+ as the transaction grid. -/
theorem c8_grid_loader (input : Option (List (List (Option String)))) :
    ((∃ e, read_complex_excel input = .error e) ↔
      (input = none ∨ ∃ rows, input = some rows ∧ rows.length < 9))
    ∧ (∀ rows, input = some rows → 9 ≤ rows.length →
        read_complex_excel input = .ok
          { metadata := rows.take 8, headerRow := rows.getD 8 [], grid := rows.drop 9 }) := by
  constructor
  · constructor
    · rintro ⟨e, he⟩
      cases input with
      | none => exact Or.inl rfl
      | some rows =>
        refine Or.inr ⟨rows, rfl, ?_⟩
        by_contra hlen
        push_neg at hlen
        have h8 : 8 < rows.length := by omega
        rw [read_complex_excel, List.drop_eq_getElem_cons h8] at he
        cases he
    · rintro (h | ⟨rows, hr, hlen⟩)
      · subst h
        exact ⟨.unreadable, rfl⟩
      · subst hr
        refine ⟨.tooFewRows, ?_⟩
        rw [read_complex_excel]
        have hdrop : rows.drop 8 = [] := List.drop_eq_nil_iff.mpr (by omega)
        rw [hdrop]
  · intro rows hrows hlen
    subst hrows
    have h8 : 8 < rows.length := by omega
    rw [read_complex_excel, List.drop_eq_getElem_cons h8]
    rw [List.getD_eq_getElem rows [] h8]

/-- C8 witness: a readable nine-row file loads into eight metadata rows, the
header row and an empty grid. -/
theorem c8_grid_loader_witness :
    read_complex_excel (some (List.replicate 9 ([some "h"] : List (Option String)))) =
      .ok { metadata := (List.replicate 9 ([some "h"] : List (Option String))).take 8,
            headerRow := (List.replicate 9 ([some "h"] : List (Option String))).getD 8 [],
            grid := (List.replicate 9 ([some "h"] : List (Option String))).drop 9 } :=
  (c8_grid_loader _).2 _ rfl (by decide)

lemma annotateStep_preserve {matchId v : String} {r b : Nat} {st : AnnotState}
    (hv : st.cells.getD r none = some v) (hne : v ≠ "") :
    (annotateStep matchId st b).cells.getD r none = some v
    ∧ (annotateStep matchId st b).cells.length = st.cells.length
    ∧ (r = b → r < st.cells.length → (r, v, matchId) ∈ (annotateStep matchId st b).warnings)
    ∧ (∀ w ∈ st.warnings, w ∈ (annotateStep matchId st b).warnings) := by
  unfold annotateStep
  by_cases hb : b < st.cells.length
  · rw [if_pos hb]
    cases hbv : st.cells.getD b none with
    | none =>
      have hrb : r ≠ b := by
        intro h
        rw [h, hbv] at hv
        cases hv
      dsimp only
      refine ⟨?_, by simp, fun h _ => absurd h hrb, fun w hw => hw⟩
      rw [List.getD_eq_getElem?_getD, List.getElem?_set, if_neg (fun h => hrb h.symm),
        ← List.getD_eq_getElem?_getD]
      exact hv
    | some v' =>
      dsimp only
      by_cases hv' : v' = ""
      · have hrb : r ≠ b := by
          intro h
          rw [h, hbv] at hv
          exact hne (by injection hv with h2; rw [← h2, hv'])
        rw [if_pos hv']
        refine ⟨?_, by simp, fun h _ => absurd h hrb, fun w hw => hw⟩
        rw [List.getD_eq_getElem?_getD, List.getElem?_set, if_neg (fun h => hrb h.symm),
          ← List.getD_eq_getElem?_getD]
        exact hv
      · rw [if_neg hv']
        refine ⟨hv, rfl, ?_, fun w hw => List.mem_append_left _ hw⟩
        intro hrb _
        have hvv : v' = v := by
          rw [hrb, hbv] at hv
          injection hv
        rw [hvv]
        exact List.mem_append_right _ (List.mem_singleton.mpr (by rw [hrb]))
  · rw [if_neg hb]
    refine ⟨hv, rfl, ?_, fun w hw => hw⟩
    intro hrb hr
    rw [hrb] at hr
    exact absurd hr hb

lemma annotateBlockRows_preserve {matchId v : String} {r : Nat} (hne : v ≠ "") :
    ∀ (blockRows : List Nat) (st : AnnotState), st.cells.getD r none = some v →
    (annotateBlockRows blockRows matchId st).cells.getD r none = some v
    ∧ (annotateBlockRows blockRows matchId st).cells.length = st.cells.length
    ∧ (r ∈ blockRows → r < st.cells.length →
        (r, v, matchId) ∈ (annotateBlockRows blockRows matchId st).warnings)
    ∧ (∀ w ∈ st.warnings, w ∈ (annotateBlockRows blockRows matchId st).warnings) := by
  intro blockRows
  induction blockRows with
  | nil =>
    intro st hv
    exact ⟨hv, rfl, by simp [annotateBlockRows], fun w hw => hw⟩
  | cons b bs ih =>
    intro st hv
    have hstep : annotateBlockRows (b :: bs) matchId st =
        annotateBlockRows bs matchId (annotateStep matchId st b) := rfl
    rcases @annotateStep_preserve matchId v r b st hv hne with ⟨p1, p2, p3, p4⟩
    rcases ih (annotateStep matchId st b) p1 with ⟨q1, q2, q3, q4⟩
    rw [hstep]
    refine ⟨q1, q2.trans p2, ?_, fun w hw => q4 w (p4 w hw)⟩
    intro hmem hr
    rcases List.mem_cons.mp hmem with h | h
    · exact q4 _ (p3 h hr)
    · exact q3 h (by rw [p2]; exact hr)

/-- C9: during annotation a row already carrying a (nonempty) match id is
never overwritten — within one match's block pass the original id survives and
a conflict warning naming the row, the original id and the attempted id is
recorded — and the original id still survives the whole remaining sequence of
matches. -/
theorem c9_annotation_never_overwrites :
    (∀ (blockRows : List Nat) (matchId : String) (st : AnnotState) (r : Nat) (v : String),
       st.cells.getD r none = some v → v ≠ "" →
       (annotateBlockRows blockRows matchId st).cells.getD r none = some v
       ∧ (r ∈ blockRows → r < st.cells.length →
           (r, v, matchId) ∈ (annotateBlockRows blockRows matchId st).warnings))
    ∧ (∀ (blockRowsOf : Nat → List Nat) (ms : List (String × Nat)) (st : AnnotState)
         (r : Nat) (v : String),
       st.cells.getD r none = some v → v ≠ "" →
       (annotateMatches blockRowsOf ms st).cells.getD r none = some v) := by
  constructor
  · intro blockRows matchId st r v hv hne
    rcases annotateBlockRows_preserve hne blockRows st hv with ⟨p1, _, p3, _⟩
    exact ⟨p1, p3⟩
  · intro blockRowsOf ms
    induction ms with
    | nil => exact fun st r v hv _ => hv
    | cons m ms ih =>
      intro st r v hv hne
      have hstep : annotateMatches blockRowsOf (m :: ms) st =
          annotateMatches blockRowsOf ms (annotateBlockRows (blockRowsOf m.2) m.1 st) := rfl
      rw [hstep]
      exact ih _ r v (annotateBlockRows_preserve hne (blockRowsOf m.2) st hv).1 hne

/-- C9 witness: with row 0 already annotated `M001`, a later match `M002`
whose block covers row 0 leaves the id unchanged and signals the conflict. -/
theorem c9_annotation_never_overwrites_witness :
    (annotateBlockRows [0] "M002"
        { cells := [some "M001"], warnings := [] }).cells.getD 0 none = some "M001"
    ∧ (0, "M001", "M002") ∈ (annotateBlockRows [0] "M002"
        { cells := [some "M001"], warnings := [] }).warnings := by
  have h := c9_annotation_never_overwrites.1 [0] "M002"
    { cells := [some "M001"], warnings := [] } 0 "M001" rfl (by decide)
  exact ⟨h.1, h.2 (by decide) (by decide)⟩

/-- The first row indices of a list of blocks. -/
def blockHeads (bs : List (List Nat)) : List Nat := bs.filterMap List.head?

/-- Head index contributed by the currently open block. -/
def optHeads : Option (List Nat) → List Nat
  | none => []
  | some b => b.head?.toList

/-- The indices (offset by `i`) of the rows satisfying `isBlockStart`. -/
def startIdx (i : Nat) : List Row → List Nat
  | [] => []
  | r :: rs => (if isBlockStart r then [i] else []) ++ startIdx (i + 1) rs

lemma identifyGo_nil (i : Nat) (cur : Option (List Nat)) :
    identifyGo [] i cur = (match cur with | some b => [b] | none => []) := rfl

lemma identifyGo_cons_start {r : Row} (hs : isBlockStart r = true) (rs : List Row) (i : Nat)
    (cur : Option (List Nat)) :
    identifyGo (r :: rs) i cur =
      (match cur with | some b => [b] | none => []) ++ identifyGo rs (i + 1) (some [i]) := by
  simp [identifyGo, hs]

lemma identifyGo_cons_end {r : Row} {b : List Nat} (hs : isBlockStart r = false)
    (he : isBlockEnd r = true) (rs : List Row) (i : Nat) :
    identifyGo (r :: rs) i (some b) = (b ++ [i]) :: identifyGo rs (i + 1) none := by
  simp [identifyGo, hs, he]

lemma identifyGo_cons_mid {r : Row} {b : List Nat} (hs : isBlockStart r = false)
    (he : isBlockEnd r = false) (rs : List Row) (i : Nat) :
    identifyGo (r :: rs) i (some b) = identifyGo rs (i + 1) (some (b ++ [i])) := by
  simp [identifyGo, hs, he]

lemma identifyGo_cons_none {r : Row} (hs : isBlockStart r = false) (rs : List Row) (i : Nat) :
    identifyGo (r :: rs) i none = identifyGo rs (i + 1) none := by
  simp [identifyGo, hs]

lemma blockHeads_single (b : List Nat) : blockHeads [b] = b.head?.toList := by
  cases hb : b.head? <;> simp [blockHeads, List.filterMap_cons, hb, Option.toList]

lemma head?_append_ne_nil {b : List Nat} (hb : b ≠ []) (x : List Nat) :
    (b ++ x).head? = b.head? := by
  cases b with
  | nil => exact absurd rfl hb
  | cons y ys => rfl

lemma blockHeads_identifyGo :
    ∀ (rows : List Row) (i : Nat) (cur : Option (List Nat)),
      (∀ b, cur = some b → b ≠ []) →
      blockHeads (identifyGo rows i cur) = optHeads cur ++ startIdx i rows := by
  intro rows
  induction rows with
  | nil =>
    intro i cur hcur
    rw [identifyGo_nil]
    cases cur with
    | none => rfl
    | some b => simp [blockHeads_single, optHeads, startIdx]
  | cons r rs ih =>
    intro i cur hcur
    by_cases hs : isBlockStart r = true
    · rw [identifyGo_cons_start hs]
      rw [blockHeads, List.filterMap_append]
      rw [show List.filterMap List.head? (identifyGo rs (i + 1) (some [i])) =
        blockHeads (identifyGo rs (i + 1) (some [i])) from rfl]
      rw [ih (i + 1) (some [i]) (fun b hb => by injection hb with h; rw [← h]; simp)]
      have hopt : optHeads (some [i]) = [i] := rfl
      rw [hopt]
      cases cur with
      | none => simp [optHeads, startIdx, hs, blockHeads]
      | some b =>
        rw [show List.filterMap List.head? [b] = blockHeads [b] from rfl, blockHeads_single]
        simp [optHeads, startIdx, hs]
    · have hs' : isBlockStart r = false := by simpa using hs
      cases cur with
      | none =>
        rw [identifyGo_cons_none hs', ih (i + 1) none (by intro b hb; cases hb)]
        simp [optHeads, startIdx, hs']
      | some b =>
        have hb : b ≠ [] := hcur b rfl
        by_cases he : isBlockEnd r = true
        · rw [identifyGo_cons_end hs' he]
          rw [blockHeads, List.filterMap_cons]
          cases hh : (b ++ [i]).head? with
          | none =>
            rw [head?_append_ne_nil hb] at hh
            exact absurd hh (by simpa using List.head?_eq_none_iff.not.mpr hb)
          | some h0 =>
            rw [show List.filterMap List.head? (identifyGo rs (i + 1) none) =
              blockHeads (identifyGo rs (i + 1) none) from rfl]
            rw [ih (i + 1) none (by intro b hb; cases hb)]
            rw [head?_append_ne_nil hb] at hh
            simp [optHeads, startIdx, hs', hh]
        · have he' : isBlockEnd r = false := by simpa using he
          rw [identifyGo_cons_mid hs' he']
          rw [ih (i + 1) (some (b ++ [i])) (by intro b' hb'; injection hb' with h; rw [← h]; simp)]
          have : optHeads (some (b ++ [i])) = optHeads (some b) := by
            simp [optHeads, head?_append_ne_nil hb]
          rw [this]
          simp [startIdx, hs']

lemma mem_startIdx :
    ∀ (rows : List Row) (i j : Nat),
      j ∈ startIdx i rows ↔
        ∃ k, k < rows.length ∧ j = i + k ∧ isBlockStart (rows.getD k default) = true := by
  intro rows
  induction rows with
  | nil => simp [startIdx]
  | cons r rs ih =>
    intro i j
    rw [startIdx, List.mem_append]
    constructor
    · rintro (h | h)
      · by_cases hs : isBlockStart r = true
        · rw [if_pos hs] at h
          rcases List.mem_singleton.mp h with rfl
          exact ⟨0, by simp, by omega, by simpa using hs⟩
        · rw [if_neg (by simpa using hs)] at h
          cases h
      · rcases (ih (i + 1) j).mp h with ⟨k, h1, h2, h3⟩
        exact ⟨k + 1, by simpa using h1, by omega, by simpa using h3⟩
    · rintro ⟨k, h1, h2, h3⟩
      cases k with
      | zero =>
        left
        rw [if_pos (by simpa using h3)]
        simp [h2]
      | succ k' =>
        right
        refine (ih (i + 1) j).mpr ⟨k', by simpa using h1, by omega, by simpa using h3⟩

/-- C6: in the identifier's single forward pass, a row becomes the first row
of an identified block exactly when it satisfies the block-start predicate
(real date, Dr/Cr particulars, bold voucher type, voucher number present and
neither bold nor italic, a bold debit or credit, and no "Opening Balance" in
the particulars cell); in particular a row whose particulars cell contains
"Opening Balance" never starts a block. -/
theorem c6_block_start_characterization (rows : List Row) (j : Nat) (hj : j < rows.length) :
    ((∃ b ∈ identify_transaction_blocks rows, b.head? = some j) ↔
      isBlockStart (rows.getD j default) = true)
    ∧ (containsSub "Opening Balance" ((rows.getD j default).partVal.getD "") = true →
        truthyS (rows.getD j default).partVal = true →
        ¬∃ b ∈ identify_transaction_blocks rows, b.head? = some j) := by
  have hheads : blockHeads (identify_transaction_blocks rows) = startIdx 0 rows :=
    blockHeads_identifyGo rows 0 none (by intro b hb; cases hb)
  have hmem : (∃ b ∈ identify_transaction_blocks rows, b.head? = some j) ↔
      j ∈ startIdx 0 rows := by
    rw [← hheads]
    simp [blockHeads, List.mem_filterMap]
  have hiff : (∃ b ∈ identify_transaction_blocks rows, b.head? = some j) ↔
      isBlockStart (rows.getD j default) = true := by
    rw [hmem, mem_startIdx]
    constructor
    · rintro ⟨k, h1, h2, h3⟩
      have hk : k = j := by omega
      rw [hk] at h3
      exact h3
    · intro h
      exact ⟨j, hj, by omega, h⟩
  refine ⟨hiff, ?_⟩
  intro hob htruthy hex
  have hstart := hiff.mp hex
  rw [isBlockStart] at hstart
  simp only [Bool.and_eq_true, Bool.not_eq_true'] at hstart
  rcases hstart with ⟨⟨⟨⟨⟨_, _⟩, _⟩, _⟩, _⟩, hF⟩
  rw [htruthy, hob] at hF
  cases hF

lemma identifyGo_all_clear :
    ∀ (rows : List Row) (i : Nat) (b : List Nat),
      (∀ r ∈ rows, isBlockStart r = false ∧ isBlockEnd r = false) →
      identifyGo rows i (some b) = [b ++ List.range' i rows.length] := by
  intro rows
  induction rows with
  | nil =>
    intro i b _
    simp [identifyGo_nil]
  | cons r rs ih =>
    intro i b h
    rcases h r (List.mem_cons_self r rs) with ⟨hs, he⟩
    rw [identifyGo_cons_mid hs he]
    rw [ih (i + 1) (b ++ [i]) (fun x hx => h x (List.mem_cons_of_mem r hx))]
    rw [List.length_cons, List.range'_succ]
    simp


lemma identifyGo_getLast :
    ∀ (pre : List Row) (x : Row) (suf : List Row) (i : Nat) (cur : Option (List Nat)),
      isBlockStart x = true →
      (∀ r ∈ suf, isBlockStart r = false ∧ isBlockEnd r = false) →
      (identifyGo (pre ++ x :: suf) i cur).getLast? =
        some (List.range' (i + pre.length) (suf.length + 1)) := by
  intro pre
  induction pre with
  | nil =>
    intro x suf i cur hx hsuf
    rw [List.nil_append, identifyGo_cons_start hx]
    rw [identifyGo_all_clear suf (i + 1) [i] hsuf]
    rw [List.getLast?_append]
    simp [List.range'_succ]
  | cons p pre' ih =>
    intro x suf i cur hx hsuf
    by_cases hps : isBlockStart p = true
    · rw [List.cons_append, identifyGo_cons_start hps, List.getLast?_append]
      rw [ih x suf (i + 1) (some [i]) hx hsuf]
      simp only [Option.or_some, List.length_cons]
      congr 2
      omega
    · have hps' : isBlockStart p = false := by simpa using hps
      cases cur with
      | none =>
        rw [List.cons_append, identifyGo_cons_none hps']
        rw [ih x suf (i + 1) none hx hsuf]
        simp only [List.length_cons]
        congr 2
        omega
      | some b =>
        by_cases hpe : isBlockEnd p = true
        · rw [List.cons_append, identifyGo_cons_end hps' hpe]
          rw [show ((b ++ [i]) :: identifyGo (pre' ++ x :: suf) (i + 1) none) =
            [b ++ [i]] ++ identifyGo (pre' ++ x :: suf) (i + 1) none from rfl]
          rw [List.getLast?_append]
          rw [ih x suf (i + 1) none hx hsuf]
          simp only [Option.or_some, List.length_cons]
          congr 2
          omega
        · have hpe' : isBlockEnd p = false := by simpa using hpe
          rw [List.cons_append, identifyGo_cons_mid hps' hpe']
          rw [ih x suf (i + 1) (some (b ++ [i])) hx hsuf]
          simp only [List.length_cons]
          congr 2
          omega

/-- C7, amended: when a row starts a block and the input ends before any
"Entered By :" trailer appears, the identifier still emits one block spanning
from the start row to the last row of input (as the last identified block),
and it throws nothing — but no `BlockIntegrityWarning` is reported: the
routine has no warning channel at all. -/
theorem c7_trailerless_block (rows : List Row) (s : Nat) (hs : s < rows.length)
    (hstart : isBlockStart (rows.getD s default) = true)
    (hafter : ∀ k, s < k → k < rows.length →
        isBlockStart (rows.getD k default) = false ∧
        isBlockEnd (rows.getD k default) = false) :
    (identify_transaction_blocks rows).getLast? =
      some (List.range' s (rows.length - s))
    ∧ blockIntegrityWarnings rows = [] := by
  refine ⟨?_, rfl⟩
  have hsplit : rows.take s ++ rows.getD s default :: rows.drop (s + 1) = rows := by
    rw [List.getD_eq_getElem rows default hs, ← List.drop_eq_getElem_cons hs]
    exact List.take_append_drop s rows
  have hsuf : ∀ r ∈ rows.drop (s + 1), isBlockStart r = false ∧ isBlockEnd r = false := by
    intro r hr
    rcases List.mem_iff_getElem.mp hr with ⟨t, ht, hrt⟩
    rw [List.getElem_drop] at hrt
    have hlen : s + 1 + t < rows.length := by
      rw [List.length_drop] at ht
      omega
    have := hafter (s + 1 + t) (by omega) hlen
    rw [List.getD_eq_getElem rows default hlen, hrt] at this
    exact this
  have hmain := identifyGo_getLast (rows.take s) (rows.getD s default) (rows.drop (s + 1))
    0 none hstart hsuf
  rw [hsplit] at hmain
  rw [identify_transaction_blocks, hmain]
  congr 2
  · rw [List.length_take]
    omega
  · rw [List.length_drop]
    omega

/-- A trailerless example: row 0 is a block-start row (real date, `Dr`
particulars, bold voucher type, plain voucher number, bold debit) and the
input ends after one narration row with no "Entered By :" trailer. -/
def c7Start : Row :=
  { dateVal := some "01/Jul/2024", partVal := some "Dr",
    vchTypeVal := some "Payment", vchTypeBold := true, vchNoVal := some "123",
    debitVal := some 100, debitBold := true }

/-- The trailerless two-row input. -/
def c7Rows : List Row := [c7Start, { descVal := some "narr", descItalic := true }]

/-- C7 counterexample: on the trailerless input the identifier does emit the
block spanning rows 0–1, but the warnings it signals are empty — no
`BlockIntegrityWarning` is reported anywhere. -/
theorem c7_no_warning_counterexample :
    identify_transaction_blocks c7Rows = [[0, 1]]
    ∧ isBlockStart (c7Rows.getD 0 default) = true
    ∧ (∀ r ∈ c7Rows, isBlockEnd r = false)
    ∧ blockIntegrityWarnings c7Rows = [] :=
  ⟨by decide, by decide, by decide, rfl⟩

/-- C7 witness: the amended theorem applied to the trailerless example. -/
theorem c7_trailerless_block_witness :
    (identify_transaction_blocks c7Rows).getLast? =
      some (List.range' 0 (c7Rows.length - 0)) :=
  (c7_trailerless_block c7Rows 0 (by decide) (by decide)
    (by
      intro k h1 h2
      have hk : k = 1 := by
        simp [c7Rows] at h2
        omega
      rw [hk]
      exact ⟨by decide, by decide⟩)).1

/-- C6 witness: the characterization applied to row 0 of the trailerless
example, which is a block-start row. -/
theorem c6_block_start_characterization_witness :
    (∃ b ∈ identify_transaction_blocks c7Rows, b.head? = some 0) ↔
      isBlockStart (c7Rows.getD 0 default) = true :=
  (c6_block_start_characterization c7Rows 0 (by decide)).1

/-- Side condition of the amended amount invariant: no DataFrame row of the
file has both a positive parsed debit and a positive parsed credit. -/
def DfExclusive (f : FileData) : Prop :=
  ∀ i, i < f.rows.length → ¬(0 < dAmt f i ∧ 0 < cAmt f i)

/-- Worksheet analogue: no row carries truthy raw debit AND credit values. -/
def WsExclusive (f : FileData) : Prop :=
  ∀ r ∈ f.rows, ¬(truthyQ r.debitVal = true ∧ truthyQ r.creditVal = true)

/-- A raw worksheet amount cell is absent or holds a non-negative value. -/
def nonNegQ : Option ℚ → Bool
  | none => true
  | some q => decide (0 ≤ q)

/-- Side condition: no worksheet row carries a negative raw amount. -/
def WsPositive (f : FileData) : Prop :=
  ∀ r ∈ f.rows, nonNegQ r.debitVal = true ∧ nonNegQ r.creditVal = true

/-- The spec's "one Lender with debit > 0, one Borrower with credit > 0" for
a match of the DataFrame-indexed strategies: the shared amount is positive
and sits as the parsed debit of one row and the parsed credit of the other,
each row silent on the opposite column. -/
def dfOppositeAt (f1 f2 : FileData) (m : MatchRec) : Prop :=
  (0 < m.amount ∧ dAmt f1 m.file1Index = m.amount ∧ cAmt f2 m.file2Index = m.amount ∧
    ¬0 < cAmt f1 m.file1Index ∧ ¬0 < dAmt f2 m.file2Index)
  ∨ (0 < m.amount ∧ cAmt f1 m.file1Index = m.amount ∧ dAmt f2 m.file2Index = m.amount ∧
    ¬0 < dAmt f1 m.file1Index ∧ ¬0 < cAmt f2 m.file2Index)

/-- The same opposite-sides shape for the Interunit strategy, which reads the
raw worksheet debit/credit values instead of the parsed DataFrame amounts. -/
def wsOppositeAt (f1 f2 : FileData) (m : MatchRec) : Prop :=
  ∃ q : ℚ, 0 < q ∧ m.amount = q ∧
    (((rowAt f1 m.file1Index).debitVal = some q ∧
      truthyQ (rowAt f1 m.file1Index).creditVal = false ∧
      (rowAt f2 m.file2Index).creditVal = some q ∧
      truthyQ (rowAt f2 m.file2Index).debitVal = false)
    ∨ ((rowAt f1 m.file1Index).creditVal = some q ∧
      truthyQ (rowAt f1 m.file1Index).debitVal = false ∧
      (rowAt f2 m.file2Index).debitVal = some q ∧
      truthyQ (rowAt f2 m.file2Index).creditVal = false))

/-- The amount invariant for one match, by strategy family. -/
def amountEqualAndOpposite (f1 f2 : FileData) (m : MatchRec) : Prop :=
  if m.mtype = "Interunit" then wsOppositeAt f1 f2 m else dfOppositeAt f1 f2 m

instance (f : FileData) : Decidable (DfExclusive f) := by
  unfold DfExclusive
  infer_instance

instance (f : FileData) : Decidable (WsExclusive f) := by
  unfold WsExclusive
  infer_instance

instance (f : FileData) : Decidable (WsPositive f) := by
  unfold WsPositive
  infer_instance

instance (f1 f2 : FileData) (m : MatchRec) : Decidable (dfOppositeAt f1 f2 m) := by
  unfold dfOppositeAt
  infer_instance

lemma analyzeRowStep_amounts (mapping : List (String × String)) (r : Row) (ri : Nat)
    (bd : BlockData) :
    (analyzeRowStep mapping r ri bd).amounts =
      if truthyQ r.debitVal || truthyQ r.creditVal then
        some { debit := if truthyQ r.debitVal then r.debitVal else none,
               credit := if truthyQ r.creditVal then r.creditVal else none,
               row := ri }
      else bd.amounts := by
  simp only [analyzeRowStep]
  split_ifs <;> rfl

/-- What `_analyze_formatting_data` guarantees of a block's recorded amounts:
they are the truthy-filtered raw debit/credit of an in-range worksheet row. -/
def AmtRecSpec (rows : List Row) (rec : AmtRec) : Prop :=
  rec.row < rows.length ∧
  rec.debit = (if truthyQ (rows.getD rec.row default).debitVal then
    (rows.getD rec.row default).debitVal else none) ∧
  rec.credit = (if truthyQ (rows.getD rec.row default).creditVal then
    (rows.getD rec.row default).creditVal else none)

lemma analyzeBlock_amounts_spec (mapping : List (String × String)) (rows : List Row) :
    ∀ (block : List Nat) (bd0 : BlockData),
      (∀ rec, bd0.amounts = some rec → AmtRecSpec rows rec) →
      ∀ rec, (List.foldl (fun bd rowIdx => if rowIdx < rows.length then
          analyzeRowStep mapping (rows.getD rowIdx default) rowIdx bd else bd) bd0
          block).amounts = some rec →
        AmtRecSpec rows rec := by
  intro block
  induction block with
  | nil => exact fun bd0 h0 rec h => h0 rec h
  | cons ri bs ih =>
    intro bd0 h0 rec h
    rw [List.foldl_cons] at h
    refine ih _ ?_ rec h
    intro rec' hrec'
    by_cases hri : ri < rows.length
    · rw [if_pos hri, analyzeRowStep_amounts] at hrec'
      by_cases hc : (truthyQ (rows.getD ri default).debitVal ||
          truthyQ (rows.getD ri default).creditVal) = true
      · rw [if_pos hc] at hrec'
        injection hrec' with h2
        rw [← h2]
        exact ⟨hri, rfl, rfl⟩
      · rw [if_neg (by simpa using hc)] at hrec'
        exact h0 rec' hrec'
    · rw [if_neg hri] at hrec'
      exact h0 rec' hrec'

lemma analyze_formatting_data_amounts {mapping : List (String × String)} {rows : List Row}
    {bd : BlockData} (hbd : bd ∈ analyze_formatting_data mapping rows) :
    ∀ rec, bd.amounts = some rec → AmtRecSpec rows rec := by
  rcases List.mem_filter.mp hbd with ⟨hmem, _⟩
  rcases List.mem_map.mp hmem with ⟨block, _, hb⟩
  intro rec h
  rw [← hb] at h
  exact analyzeBlock_amounts_spec mapping rows block _ (by intro rec' h'; cases h') rec h

lemma truthyQ_some {q : ℚ} : truthyQ (some q) = true ↔ q ≠ 0 := by
  simp [truthyQ]

lemma truthyQ_exists {o : Option ℚ} (h : truthyQ o = true) : ∃ q, o = some q ∧ q ≠ 0 := by
  cases o with
  | none => cases h
  | some q => exact ⟨q, rfl, by simpa [truthyQ] using h⟩

lemma ite_truthy_opt {v : Option ℚ} (h : truthyQ (if truthyQ v then v else none) = true) :
    truthyQ v = true ∧ (if truthyQ v then v else none) = v := by
  by_cases hv : truthyQ v = true
  · exact ⟨hv, if_pos hv⟩
  · rw [if_neg hv] at h
    cases h

lemma rowAt_mem {f : FileData} {i : Nat} (h : i < f.rows.length) : rowAt f i ∈ f.rows := by
  rw [rowAt, List.getD_eq_getElem _ _ h]
  exact List.getElem_mem h

lemma nonNegQ_pos {o : Option ℚ} {q : ℚ} (h : nonNegQ o = true) (hq : o = some q)
    (hne : q ≠ 0) : 0 < q := by
  rw [hq] at h
  simp only [nonNegQ, decide_eq_true_eq] at h
  exact lt_of_le_of_ne h (Ne.symm hne)

lemma interunitPair_spec {f1 f2 : FileData} {b1 b2 : BlockData} {m : MatchRec}
    (hs1 : ∀ rec, b1.amounts = some rec → AmtRecSpec f1.rows rec)
    (hs2 : ∀ rec, b2.amounts = some rec → AmtRecSpec f2.rows rec)
    (hx1 : WsExclusive f1) (hx2 : WsExclusive f2)
    (hp1 : WsPositive f1) (hp2 : WsPositive f2)
    (hpair : interunitPair b1 b2 = some m) : wsOppositeAt f1 f2 m := by
  unfold interunitPair at hpair
  cases ha1 : b1.amounts with
  | none => rw [ha1] at hpair; cases hpair
  | some a1 =>
  cases ha2 : b2.amounts with
  | none => rw [ha1, ha2] at hpair; cases hpair
  | some a2 =>
  rw [ha1, ha2] at hpair
  dsimp only at hpair
  rcases hs1 a1 ha1 with ⟨hrow1, hd1, hc1⟩
  rcases hs2 a2 ha2 with ⟨hrow2, hd2, hc2⟩
  by_cases hg : ((truthyQ a1.debit && truthyQ a2.credit) ||
      (truthyQ a1.credit && truthyQ a2.debit)) = true
  case neg => rw [if_neg hg] at hpair; cases hpair
  rw [if_pos hg] at hpair
  rw [Bool.or_eq_true, Bool.and_eq_true, Bool.and_eq_true] at hg
  rcases hg with ⟨hA1, hA2⟩ | ⟨hB1, hB2⟩
  · rcases ite_truthy_opt (hd1 ▸ hA1) with ⟨ht1, _⟩
    have hd1' : a1.debit = (f1.rows.getD a1.row default).debitVal := by rw [hd1, if_pos ht1]
    have hcx1 : truthyQ (f1.rows.getD a1.row default).creditVal = false := by
      cases hcc : truthyQ (f1.rows.getD a1.row default).creditVal with
      | false => rfl
      | true => exact absurd ⟨ht1, hcc⟩ (hx1 _ (rowAt_mem hrow1))
    have hc1' : a1.credit = none := by rw [hc1, if_neg (by rw [hcx1]; exact Bool.false_ne_true)]
    rcases ite_truthy_opt (hc2 ▸ hA2) with ⟨ht2, _⟩
    have hc2' : a2.credit = (f2.rows.getD a2.row default).creditVal := by rw [hc2, if_pos ht2]
    have hdx2 : truthyQ (f2.rows.getD a2.row default).debitVal = false := by
      cases hdd : truthyQ (f2.rows.getD a2.row default).debitVal with
      | false => rfl
      | true => exact absurd ⟨hdd, ht2⟩ (hx2 _ (rowAt_mem hrow2))
    have hd2' : a2.debit = none := by rw [hd2, if_neg (by rw [hdx2]; exact Bool.false_ne_true)]
    rw [if_pos hA1] at hpair
    have htd2 : truthyQ a2.debit = false := by
      rw [hd2']
      rfl
    rw [htd2] at hpair
    rw [if_neg Bool.false_ne_true] at hpair
    rcases truthyQ_exists ht1 with ⟨q1, hq1, hq1ne⟩
    rcases truthyQ_exists ht2 with ⟨q2, hq2, hq2ne⟩
    rw [hd1', hq1, hc2', hq2] at hpair
    by_cases heq : ((some q1 : Option ℚ) == some q2) = true
    case neg => rw [if_neg heq] at hpair; cases hpair
    rw [if_pos heq] at hpair
    have hq12 : q1 = q2 := by simpa using heq
    cases hcr1 : firstCross b1.narrCodes b2.ledgerCodes with
    | none => rw [hcr1] at hpair; cases hpair
    | some c1 =>
    cases hcr2 : firstCross b2.narrCodes b1.ledgerCodes with
    | none => rw [hcr1, hcr2] at hpair; cases hpair
    | some c2 =>
    rw [hcr1, hcr2] at hpair
    injection hpair with hm
    refine ⟨q1, ?_, ?_, Or.inl ⟨?_, ?_, ?_, ?_⟩⟩
    · exact nonNegQ_pos (hp1 _ (rowAt_mem hrow1)).1 hq1 hq1ne
    · rw [← hm]
      rfl
    · rw [← hm]
      show (rowAt f1 a1.row).debitVal = some q1
      rw [rowAt, hq1]
    · rw [← hm]
      exact hcx1
    · rw [← hm]
      show (rowAt f2 a2.row).creditVal = some q1
      rw [rowAt, hq2, hq12]
    · rw [← hm]
      exact hdx2
  · rcases ite_truthy_opt (hc1 ▸ hB1) with ⟨ht1, _⟩
    have hc1' : a1.credit = (f1.rows.getD a1.row default).creditVal := by rw [hc1, if_pos ht1]
    have hdx1 : truthyQ (f1.rows.getD a1.row default).debitVal = false := by
      cases hdd : truthyQ (f1.rows.getD a1.row default).debitVal with
      | false => rfl
      | true => exact absurd ⟨hdd, ht1⟩ (hx1 _ (rowAt_mem hrow1))
    have hd1' : a1.debit = none := by rw [hd1, if_neg (by rw [hdx1]; exact Bool.false_ne_true)]
    rcases ite_truthy_opt (hd2 ▸ hB2) with ⟨ht2, _⟩
    have hd2' : a2.debit = (f2.rows.getD a2.row default).debitVal := by rw [hd2, if_pos ht2]
    have hcx2 : truthyQ (f2.rows.getD a2.row default).creditVal = false := by
      cases hcc : truthyQ (f2.rows.getD a2.row default).creditVal with
      | false => rfl
      | true => exact absurd ⟨ht2, hcc⟩ (hx2 _ (rowAt_mem hrow2))
    have hc2' : a2.credit = none := by rw [hc2, if_neg (by rw [hcx2]; exact Bool.false_ne_true)]
    have htd1 : truthyQ a1.debit = false := by
      rw [hd1']
      rfl
    rw [htd1] at hpair
    rw [if_neg Bool.false_ne_true] at hpair
    have htd2 : truthyQ a2.debit = true := by
      rw [hd2']
      exact ht2
    rw [htd2] at hpair
    rw [if_pos rfl] at hpair
    rcases truthyQ_exists ht1 with ⟨q1, hq1, hq1ne⟩
    rcases truthyQ_exists ht2 with ⟨q2, hq2, hq2ne⟩
    rw [hc1', hq1, hd2', hq2] at hpair
    by_cases heq : ((some q1 : Option ℚ) == some q2) = true
    case neg => rw [if_neg heq] at hpair; cases hpair
    rw [if_pos heq] at hpair
    have hq12 : q1 = q2 := by simpa using heq
    cases hcr1 : firstCross b1.narrCodes b2.ledgerCodes with
    | none => rw [hcr1] at hpair; cases hpair
    | some c1 =>
    cases hcr2 : firstCross b2.narrCodes b1.ledgerCodes with
    | none => rw [hcr1, hcr2] at hpair; cases hpair
    | some c2 =>
    rw [hcr1, hcr2] at hpair
    injection hpair with hm
    refine ⟨q1, ?_, ?_, Or.inr ⟨?_, ?_, ?_, ?_⟩⟩
    · exact nonNegQ_pos (hp1 _ (rowAt_mem hrow1)).2 hq1 hq1ne
    · rw [← hm]
      rfl
    · rw [← hm]
      show (rowAt f1 a1.row).creditVal = some q1
      rw [rowAt, hq1]
    · rw [← hm]
      exact hdx1
    · rw [← hm]
      show (rowAt f2 a2.row).debitVal = some q1
      rw [rowAt, hq2, hq12]
    · rw [← hm]
      exact hcx2

lemma interunitPair_mtype {b1 b2 : BlockData} {m : MatchRec}
    (h : interunitPair b1 b2 = some m) : m.mtype = "Interunit" := by
  unfold interunitPair at h
  cases hb1 : b1.amounts with
  | none => rw [hb1] at h; cases h
  | some a1 =>
  cases hb2 : b2.amounts with
  | none => rw [hb1, hb2] at h; cases h
  | some a2 =>
  rw [hb1, hb2] at h
  dsimp only at h
  by_cases hg : ((truthyQ a1.debit && truthyQ a2.credit) ||
      (truthyQ a1.credit && truthyQ a2.debit)) = true
  case neg => rw [if_neg hg] at h; cases h
  rw [if_pos hg] at h
  by_cases heq : (((if truthyQ a1.debit then a1.debit else a1.credit) : Option ℚ) ==
      (if truthyQ a2.debit then a2.debit else a2.credit)) = true
  case neg => rw [if_neg heq] at h; cases h
  rw [if_pos heq] at h
  cases hcr1 : firstCross b1.narrCodes b2.ledgerCodes with
  | none => rw [hcr1] at h; cases h
  | some c1 =>
  cases hcr2 : firstCross b2.narrCodes b1.ledgerCodes with
  | none => rw [hcr1, hcr2] at h; cases h
  | some c2 =>
  rw [hcr1, hcr2] at h
  injection h with h'
  rw [← h']

lemma bucketPairs_dfOpposite {f1 f2 : FileData} {condF condR : Nat → Nat → Bool}
    {mkF mkR : Nat → Nat → ℚ → MatchRec} {m : MatchRec}
    (hx1 : DfExclusive f1) (hx2 : DfExclusive f2)
    (hkF : ∀ li bi a, (mkF li bi a).amount = a ∧ (mkF li bi a).file1Index = li ∧
      (mkF li bi a).file2Index = bi)
    (hkR : ∀ li bi a, (mkR li bi a).amount = a ∧ (mkR li bi a).file1Index = bi ∧
      (mkR li bi a).file2Index = li)
    (hm : m ∈ bucketPairs f1 f2 condF mkF condR mkR) : dfOppositeAt f1 f2 m := by
  rcases mem_bucketPairs.mp hm with ⟨a, li, bi, hl, hb, _, hmk⟩ | ⟨a, li, bi, hl, hb, _, hmk⟩
  · rcases mem_lendersAt.mp hl with ⟨hli, hdp, hda⟩
    rcases mem_borrowersAt.mp hb with ⟨hbi, hcp, hca⟩
    rcases hkF li bi a with ⟨hA, hI1, hI2⟩
    refine Or.inl ?_
    rw [hmk, hA, hI1, hI2]
    refine ⟨hda ▸ hdp, hda, hca, ?_, ?_⟩
    · intro hc
      exact hx1 li hli ⟨hdp, hc⟩
    · intro hd
      exact hx2 bi hbi ⟨hd, hcp⟩
  · rcases mem_lendersAt.mp hl with ⟨hli, hdp, hda⟩
    rcases mem_borrowersAt.mp hb with ⟨hbi, hcp, hca⟩
    rcases hkR li bi a with ⟨hA, hI1, hI2⟩
    refine Or.inr ?_
    rw [hmk, hA, hI1, hI2]
    refine ⟨hda ▸ hdp, hca, hda, ?_, ?_⟩
    · intro hd
      exact hx1 bi hbi ⟨hd, hcp⟩
    · intro hc
      exact hx2 li hli ⟨hdp, hc⟩

lemma amountEqualAndOpposite_mid {f1 f2 : FileData} {m : MatchRec} {s : Option String} :
    amountEqualAndOpposite f1 f2 { m with mid := s } ↔ amountEqualAndOpposite f1 f2 m :=
  Iff.rfl

/-- C3, amended: under the side conditions that no DataFrame row carries both
a positive parsed debit and a positive parsed credit, and no worksheet row
carries both truthy raw amounts or a negative raw amount, every match of the
pipeline pairs exactly equal amounts on opposite sides: for the four
amount-indexed strategies the File 1 row and the File 2 row hold the shared
positive amount as a lender debit on one side and a borrower credit on the
other, and for the Interunit strategy the same holds of the raw worksheet
values.  (Without the exclusivity side condition the property is false: see
the counterexample.) -/
theorem c3_amount_equality_and_opposite_sides (mapping : List (String × String))
    (f1 f2 : FileData)
    (hx1 : DfExclusive f1) (hx2 : DfExclusive f2)
    (hw1 : WsExclusive f1) (hw2 : WsExclusive f2)
    (hp1 : WsPositive f1) (hp2 : WsPositive f2) :
    ∀ m ∈ find_potential_matches mapping f1 f2, amountEqualAndOpposite f1 f2 m := by
  intro m hm
  rw [find_potential_matches, mem_sortByMid] at hm
  rcases mem_assignIdsFrom hm with ⟨m0, hm0, s, hs⟩
  rw [hs, amountEqualAndOpposite_mid]
  simp only [allMatchesConcat, List.mem_append, List.not_mem_nil, or_false] at hm0
  rcases hm0 with ((((hn | hlc) | hpo) | hiu) | husd)
  · unfold find_narration_matches_optimized at hn
    have hty : m0.mtype = "Narration" := by
      rcases mem_bucketPairs.mp hn with ⟨a, li, bi, _, _, _, hmk⟩ | ⟨a, li, bi, _, _, _, hmk⟩ <;>
        rw [hmk]
    unfold amountEqualAndOpposite
    rw [if_neg (by rw [hty]; decide)]
    exact bucketPairs_dfOpposite hx1 hx2 (fun li bi a => ⟨rfl, rfl, rfl⟩)
      (fun li bi a => ⟨rfl, rfl, rfl⟩) hn
  · unfold find_lc_matches_optimized at hlc
    have hty : m0.mtype = "LC" := by
      rcases mem_bucketPairs.mp hlc with ⟨a, li, bi, _, _, _, hmk⟩ | ⟨a, li, bi, _, _, _, hmk⟩ <;>
        rw [hmk]
    unfold amountEqualAndOpposite
    rw [if_neg (by rw [hty]; decide)]
    exact bucketPairs_dfOpposite hx1 hx2 (fun li bi a => ⟨rfl, rfl, rfl⟩)
      (fun li bi a => ⟨rfl, rfl, rfl⟩) hlc
  · unfold find_po_matches_optimized at hpo
    have hty : m0.mtype = "PO" := by
      rcases mem_bucketPairs.mp hpo with ⟨a, li, bi, _, _, _, hmk⟩ | ⟨a, li, bi, _, _, _, hmk⟩ <;>
        rw [hmk]
    unfold amountEqualAndOpposite
    rw [if_neg (by rw [hty]; decide)]
    exact bucketPairs_dfOpposite hx1 hx2 (fun li bi a => ⟨rfl, rfl, rfl⟩)
      (fun li bi a => ⟨rfl, rfl, rfl⟩) hpo
  · simp only [find_interunit_matches_optimized, List.mem_flatMap, List.mem_filterMap] at hiu
    rcases hiu with ⟨b1, hb1, b2, hb2, hpair⟩
    unfold amountEqualAndOpposite
    rw [if_pos (interunitPair_mtype hpair)]
    exact interunitPair_spec (analyze_formatting_data_amounts hb1)
      (analyze_formatting_data_amounts hb2) hw1 hw2 hp1 hp2 hpair
  · unfold find_usd_matches_optimized at husd
    have hty : m0.mtype = "USD" := by
      rcases mem_bucketPairs.mp husd with ⟨a, li, bi, _, _, _, hmk⟩ | ⟨a, li, bi, _, _, _, hmk⟩ <;>
        rw [hmk]
    unfold amountEqualAndOpposite
    rw [if_neg (by rw [hty]; decide)]
    exact bucketPairs_dfOpposite hx1 hx2 (fun li bi a => ⟨rfl, rfl, rfl⟩)
      (fun li bi a => ⟨rfl, rfl, rfl⟩) husd

/-- A row whose debit text and credit text are both "5" while its narration
is 12 characters long: it enters the amount index as a lender AND as a
borrower. -/
def c3Row : Row :=
  { descStr := some "ABCDEFGHIJKL", debitStr := some "5", creditStr := some "5" }

/-- File 1 state of the dual-sided example. -/
def c3F1 : FileData :=
  { rows := [c3Row], lcArr := [none], poArr := [none], usdArr := [none], iuArr := [none] }

/-- File 2 state of the dual-sided example. -/
def c3F2 : FileData :=
  { rows := [c3Row], lcArr := [none], poArr := [none], usdArr := [none], iuArr := [none] }

/-- C3, counterexample: a row with equal positive debit AND credit text is
indexed as lender and as borrower at once, and the pipeline emits a Narration
match whose File 1 row is on both sides — the claimed "exactly one Lender
with debit > 0 and the other a Borrower with credit > 0" fails. -/
theorem c3_dual_sided_counterexample :
    ∃ m ∈ find_potential_matches [] c3F1 c3F2,
      m.mtype = "Narration" ∧ m.amount = 5 ∧
      0 < dAmt c3F1 m.file1Index ∧ 0 < cAmt c3F1 m.file1Index ∧
      ¬ dfOppositeAt c3F1 c3F2 m := by
  decide

/-- C3, witness: the side conditions hold of the one-lender/one-borrower
example pair, and every match of its pipeline run has exactly equal amounts
on opposite sides. -/
theorem c3_amount_equality_and_opposite_sides_witness :
    DfExclusive exF1 ∧ DfExclusive exF2 ∧ WsExclusive exF1 ∧ WsExclusive exF2 ∧
    WsPositive exF1 ∧ WsPositive exF2 ∧
    ∀ m ∈ find_potential_matches [] exF1 exF2, amountEqualAndOpposite exF1 exF2 m :=
  ⟨by decide, by decide, by decide, by decide, by decide, by decide,
   c3_amount_equality_and_opposite_sides [] exF1 exF2 (by decide) (by decide) (by decide)
     (by decide) (by decide) (by decide)⟩
